import Mathlib

/-
Verification development for the PdfToEpubAI repository.

The TypeScript sources are shallowly embedded as Lean definitions:
 - src/services/imageProcessor.ts : calculateDynamicBatches, extractAndProcessImages
 - the Gemini service module      : retryWithBackoff, generateImageCaptions
 - src/services/epubGenerator.ts  : escapeXml, the marked renderer overrides, generateEpub

Browser/PDF primitives (pdfjs page handles, canvas rendering, blobs) are
modelled as data carried by an abstract document value: a page knows the
outcome of its text-content probe, its drawable raster objects, and the
data produced by rendering the whole page.  Asynchronous completion order
of concurrent tasks and AI responses are modelled as explicit parameters
(permutations of the produced list, response oracles indexed by attempt or
batch).  The external `marked` markdown library is modelled for the
fragment the generator relies on: ATX headings, blank-line separated
paragraphs, and inline image references, with marked's HTML escaping of
plain text.  JavaScript string helpers (split, replace, includes,
toLowerCase, parseInt on digit strings, number-to-string) are embedded as
executable functions on character lists that mirror the JS semantics on
the inputs in question.
-/

/-! ## Character and string utilities (JS string semantics) -/

/-- Decimal digit character for a value `0..9` (values `≥ 9` clamp to `'9'`,
which never happens on the inputs used). -/
def digitChar (n : Nat) : Char :=
  match n with
  | 0 => '0'
  | 1 => '1'
  | 2 => '2'
  | 3 => '3'
  | 4 => '4'
  | 5 => '5'
  | 6 => '6'
  | 7 => '7'
  | 8 => '8'
  | _ => '9'

/-- Fuelled decimal rendering of a natural number, mirroring JS
number-to-string conversion for non-negative integers. -/
def natToCharsAux : Nat → Nat → List Char
  | 0, _ => []
  | fuel + 1, n =>
    if n < 10 then [digitChar n]
    else natToCharsAux fuel (n / 10) ++ [digitChar (n % 10)]

/-- Decimal rendering of a natural number (JS template-literal conversion). -/
def natToChars (n : Nat) : List Char := natToCharsAux (n + 1) n

/-- Decimal rendering as a `String`. -/
def natStr (n : Nat) : String := ⟨natToChars n⟩

/-- Is `c` an ASCII decimal digit? -/
def isDigitChar (c : Char) : Bool := decide ('0' ≤ c) && decide (c ≤ '9')

/-- Numeric value of a digit character. -/
def digitVal (c : Char) : Nat := c.toNat - 48

/-- JS `parseInt` on a string that starts with decimal digits: fold the
leading digit prefix. -/
def parseIntChars (l : List Char) : Nat :=
  (l.takeWhile isDigitChar).foldl (fun a c => a * 10 + digitVal c) 0

/-- Prepend a character onto the first piece of a split result
(helper for the JS `split` embeddings). -/
def consHead (c : Char) : List (List Char) → List (List Char)
  | [] => [[c]]
  | h :: t => (c :: h) :: t

/-- JS `String.prototype.split` with a one-character separator. -/
def jsSplit1 (a : Char) : List Char → List (List Char)
  | [] => [[]]
  | c :: r => if c = a then [] :: jsSplit1 a r else consHead c (jsSplit1 a r)

/-- JS `String.prototype.split` with a two-character separator. -/
def jsSplit2 (a b : Char) : List Char → List (List Char)
  | [] => [[]]
  | [c] => [[c]]
  | c1 :: c2 :: r =>
    if c1 = a ∧ c2 = b then [] :: jsSplit2 a b r
    else consHead c1 (jsSplit2 a b (c2 :: r))

/-- JS `String.prototype.includes`: does `s` contain `p` as a contiguous
substring? -/
def containsSub (p : List Char) : List Char → Bool
  | [] => p.isEmpty
  | c :: r => p.isPrefixOf (c :: r) || containsSub p r

/-- No two adjacent characters of the list are `a` followed by `b`
(used to locate the first occurrence of a two-character separator). -/
def pairFree (a b : Char) : List Char → Bool
  | c1 :: c2 :: r => !(c1 == a && c2 == b) && pairFree a b (c2 :: r)
  | _ => true

/-- JS `String.prototype.replace` with a global single-character pattern. -/
def replaceChar (c : Char) (rep : List Char) : List Char → List Char
  | [] => []
  | x :: r => if x = c then rep ++ replaceChar c rep r else x :: replaceChar c rep r

/-! ## src/services/epubGenerator.ts : escapeXml -/

/-- `escapeXml` of epubGenerator.ts: the chained global replacements
`& → &amp;`, `< → &lt;`, `> → &gt;`, `" → &quot;`, `' → &apos;`
(falsy input yields the empty string, which the chain also produces). -/
def escapeXml (s : String) : String :=
  ⟨replaceChar '\'' ['&', 'a', 'p', 'o', 's', ';']
    (replaceChar '"' ['&', 'q', 'u', 'o', 't', ';']
      (replaceChar '>' ['&', 'g', 't', ';']
        (replaceChar '<' ['&', 'l', 't', ';']
          (replaceChar '&' ['&', 'a', 'm', 'p', ';'] s.data))))⟩

/-! ## The marked fragment used by the generator -/

/-- Inline token of the modelled markdown fragment: a plain character or an
image reference `![alt](href)`. -/
inductive Inline where
  | chr (c : Char)
  | image (alt href : List Char)
deriving DecidableEq

/-- Split at the first occurrence of a delimiter character, returning the
part before it and the part after it. -/
def splitOnceChar (d : Char) : List Char → Option (List Char × List Char)
  | [] => none
  | c :: r =>
    if c = d then some ([], r)
    else
      match splitOnceChar d r with
      | some (x, y) => some (c :: x, y)
      | none => none

/-- Fuelled inline tokenizer for the modelled fragment: recognizes
`![alt](href)`, everything else is plain text (character by character).
Each step consumes at least one character, so fuel `length + 1` suffices. -/
def parseInlinesAux : Nat → List Char → List Inline
  | 0, l => l.map Inline.chr
  | _ + 1, [] => []
  | fuel + 1, '!' :: '[' :: rest =>
    (match splitOnceChar ']' rest with
     | some (alt, '(' :: rest2) =>
       (match splitOnceChar ')' rest2 with
        | some (href, rest3) => Inline.image alt href :: parseInlinesAux fuel rest3
        | none => Inline.chr '!' :: parseInlinesAux fuel ('[' :: rest))
     | _ => Inline.chr '!' :: parseInlinesAux fuel ('[' :: rest))
  | fuel + 1, c :: rest => Inline.chr c :: parseInlinesAux fuel rest

/-- Inline tokenizer with adequate fuel. -/
def parseInlines (l : List Char) : List Inline := parseInlinesAux (l.length + 1) l

/-- marked's escaping of a plain text character in emitted HTML. -/
def markedEscapeChar (c : Char) : List Char :=
  if c = '&' then ['&', 'a', 'm', 'p', ';']
  else if c = '<' then ['&', 'l', 't', ';']
  else if c = '>' then ['&', 'g', 't', ';']
  else if c = '"' then ['&', 'q', 'u', 'o', 't', ';']
  else if c = '\'' then ['&', '#', '3', '9', ';']
  else [c]

/-- The custom `renderer.image` of epubGenerator.ts: empty href renders
nothing; otherwise the href is namespaced under `images/` unless already
there, and src/alt are passed through `escapeXml`. -/
def rendererImage (href text : String) : String :=
  if href.data.isEmpty then ⟨[]⟩
  else
    let cleanHref
      := if (['i', 'm', 'a', 'g', 'e', 's', '/']).isPrefixOf href.data then href
         else ⟨['i', 'm', 'a', 'g', 'e', 's', '/'] ++ href.data⟩
    ("<img src=\"" ++ escapeXml cleanHref ++ "\" alt=\"" ++ escapeXml text ++ "\" />")

/-- Render one inline token to HTML characters. -/
def renderInline : Inline → List Char
  | Inline.chr c => markedEscapeChar c
  | Inline.image alt href => (rendererImage ⟨href⟩ ⟨alt⟩).data

/-- marked's `parser.parseInline`: tokenize and render inline content. -/
def renderText (l : List Char) : List Char :=
  ((parseInlines l).map renderInline).flatten

/-- Block token of the modelled markdown fragment. -/
inductive MBlock where
  | heading (depth : Nat) (text : String)
  | paragraph (text : String)
deriving DecidableEq

/-- Count the leading `#` characters of a line. -/
def countHashes : List Char → Nat
  | '#' :: r => countHashes r + 1
  | _ => 0

/-- Strip leading and trailing spaces. -/
def trimSpaces (l : List Char) : List Char :=
  ((l.dropWhile (fun c => c == ' ')).reverse.dropWhile (fun c => c == ' ')).reverse

/-- ATX heading recognition (marked): 1-6 leading `#` followed by a space
or end of line; the heading text is the trimmed remainder. -/
def parseHeadingLine (line : List Char) : Option (Nat × List Char) :=
  let k := countHashes line
  let rest := line.drop k
  if 1 ≤ k ∧ k ≤ 6 ∧ (rest.isEmpty ∨ rest.head? = some ' ') then
    some (k, trimSpaces rest)
  else none

/-- Is the line blank (spaces and tabs only)? -/
def isBlankLine (l : List Char) : Bool := l.all (fun c => c == ' ' || c == '\t')

/-- Join accumulated paragraph lines with newlines. -/
def joinLinesNL : List (List Char) → List Char
  | [] => []
  | [l] => l
  | l :: r => l ++ '\n' :: joinLinesNL r

/-- Close the currently accumulated paragraph, if any, in front of the
following blocks. -/
def closePara (para : List (List Char)) (rest : List MBlock) : List MBlock :=
  if para.isEmpty then rest else MBlock.paragraph ⟨joinLinesNL para⟩ :: rest

/-- Block lexer over the lines of the document: a heading line always
starts a block of its own, blank lines close paragraphs, consecutive
other lines accumulate into one paragraph. -/
def markedLexLoop : List (List Char) → List (List Char) → List MBlock
  | [], para => closePara para []
  | line :: rest, para =>
    match parseHeadingLine line with
    | some (d, t) => closePara para (MBlock.heading d ⟨t⟩ :: markedLexLoop rest [])
    | none =>
      if isBlankLine line then closePara para (markedLexLoop rest [])
      else markedLexLoop rest (para ++ [line])

/-- Block lexer of the modelled marked fragment. -/
def markedLex (md : String) : List MBlock := markedLexLoop (jsSplit1 '\n' md.data) []

/-- A recorded table-of-contents entry (`TocItem` of epubGenerator.ts). -/
structure TocItem where
  id : String
  text : String
  level : Nat
deriving DecidableEq

/-- Strip HTML tags, embedding the regex replacement
`/<[^>]*>?/gm → ''` used on recorded TOC text: the `Bool` flag is true
while inside a tag. -/
def stripTagsGo : Bool → List Char → List Char
  | _, [] => []
  | false, c :: rest => if c = '<' then stripTagsGo true rest else c :: stripTagsGo false rest
  | true, c :: rest => if c = '>' then stripTagsGo false rest else stripTagsGo true rest

/-- Strip HTML tags from rendered heading text. -/
def stripTags (l : List Char) : List Char := stripTagsGo false l

/-- Render the block stream with the custom heading renderer of
epubGenerator.ts: every heading receives `id="section-<headerCount++>"`,
and headings of depth 1-2 are recorded in the TOC with tag-stripped text.
Returns the HTML body and the recorded TOC. -/
def renderBlocksLoop : List MBlock → Nat → List Char × List TocItem
  | [], _ => ([], [])
  | MBlock.heading d t :: rest, count =>
    let text := renderText t.data
    let idStr : List Char := ['s', 'e', 'c', 't', 'i', 'o', 'n', '-'] ++ natToChars count
    let tail := renderBlocksLoop rest (count + 1)
    let entry := if d ≤ 2 then [TocItem.mk ⟨idStr⟩ ⟨stripTags text⟩ d] else []
    (['<', 'h'] ++ natToChars d ++ [' ', 'i', 'd', '=', '"'] ++ idStr ++ ['"', '>']
       ++ text ++ ['<', '/', 'h'] ++ natToChars d ++ ['>', '\n'] ++ tail.1,
     entry ++ tail.2)
  | MBlock.paragraph t :: rest, count =>
    let tail := renderBlocksLoop rest count
    (['<', 'p', '>'] ++ renderText t.data ++ ['<', '/', 'p', '>', '\n'] ++ tail.1, tail.2)

/-- `marked.parse` with the custom renderer installed: HTML body plus the
TOC captured by the heading override. -/
def markedParse (md : String) : String × List TocItem :=
  let r := renderBlocksLoop (markedLex md) 0
  (⟨r.1⟩, r.2)

/-- All headings of a block stream, in document order. -/
def headingsOf : List MBlock → List (Nat × String)
  | [] => []
  | MBlock.heading d t :: r => (d, t) :: headingsOf r
  | MBlock.paragraph _ :: r => headingsOf r

/-- Spec-side TOC construction, following the spec's words: anchor ids are
assigned sequentially in document order as headings are encountered, and
an entry is recorded for every heading of level 1-2.  (Written to compare
against the renderer's TOC; the ordinal counts every heading, of any
depth, which is what the code implements.) -/
def tocSpec (blocks : List MBlock) : List TocItem :=
  ((headingsOf blocks).enum.filter (fun p => p.2.1 ≤ 2)).map
    (fun p =>
      TocItem.mk ⟨['s', 'e', 'c', 't', 'i', 'o', 'n', '-'] ++ natToChars p.1⟩
        ⟨stripTags (renderText p.2.2.data)⟩ p.2.1)

/-! ## src/services/imageProcessor.ts -/

/-- A processed image (`ProcessedImage` of imageProcessor.ts); the binary
blob is carried as an abstract string. -/
structure ProcessedImage where
  name : String
  data : String
  mimeType : String
  description : Option String
deriving DecidableEq

/-- A drawable raster object of a PDF page: pixel dimensions, whether the
object can be fetched and painted to a canvas and encoded (the code skips
objects whose fetch throws, that are not drawable, or whose blob encoding
yields null), and its abstract pixel data. -/
structure ImgObject where
  width : Nat
  height : Nat
  drawOk : Bool
  data : String
deriving DecidableEq

/-- One page of the abstract document: the outcome of `getTextContent`
(the lengths of the text items, or a failure), the drawable raster
objects of its operator list, and the data produced by rendering the
whole page to a canvas. -/
structure PdfPage where
  textContent : Except Unit (List Nat)
  objects : List ImgObject
  wholeRender : String

/-- The abstract document handle: page count and pages (1-indexed). -/
structure PdfDoc where
  numPages : Nat
  pages : Nat → PdfPage

/-- Character budget per batch (`MAX_CHARS_PER_BATCH`). -/
def MAX_CHARS_PER_BATCH : Nat := 12000

/-- Page-count budget per batch (`MAX_PAGES_PER_BATCH`). -/
def MAX_PAGES_PER_BATCH : Nat := 8

/-- Estimated text weight of page `i`: the summed lengths of its text
items, or the fixed fallback 1000 when text extraction fails. -/
def pageTextLength (doc : PdfDoc) (i : Nat) : Nat :=
  match (doc.pages i).textContent with
  | Except.ok items => items.sum
  | Except.error _ => 1000

/-- Mutable state of the batching loop. -/
structure BatchState where
  batches : List (List Nat)
  currentBatch : List Nat
  currentBatchChars : Nat

/-- One iteration of the `calculateDynamicBatches` loop body. -/
def batchStep (doc : PdfDoc) (s : BatchState) (i : Nat) : BatchState :=
  let pageLen := pageTextLength doc i
  if (s.currentBatchChars + pageLen > MAX_CHARS_PER_BATCH
        ∨ s.currentBatch.length ≥ MAX_PAGES_PER_BATCH)
      ∧ s.currentBatch.length > 0 then
    ⟨s.batches ++ [s.currentBatch], [i], pageLen⟩
  else
    ⟨s.batches, s.currentBatch ++ [i], s.currentBatchChars + pageLen⟩

/-- The `for` loop of `calculateDynamicBatches` over the listed pages. -/
def batchLoop (doc : PdfDoc) : List Nat → BatchState → BatchState
  | [], s => s
  | i :: rest, s => batchLoop doc rest (batchStep doc s i)

/-- `calculateDynamicBatches` of imageProcessor.ts: greedy single-pass
grouping of pages `1..numPages` under the dual character/page-count
budgets, pushing the final open batch unconditionally. -/
def calculateDynamicBatches (doc : PdfDoc) : List (List Nat) :=
  let final := batchLoop doc (List.range' 1 doc.numPages) ⟨[], [], 0⟩
  if final.currentBatch.length > 0 then final.batches ++ [final.currentBatch]
  else final.batches

/-- The filename convention `image_p<page>_i<index>.jpg`. -/
def mkImageName (pageNum idx : Nat) : String :=
  ⟨['i', 'm', 'a', 'g', 'e', '_', 'p'] ++ natToChars pageNum
    ++ ['_', 'i'] ++ natToChars idx ++ ['.', 'j', 'p', 'g']⟩

/-- The per-page object walk of `processPage` (pages other than 1): skip
objects smaller than 200x200, then push a JPEG for each drawable object,
with a per-page sequential index starting at 1. -/
def processObjects (pageNum : Nat) : Nat → List ImgObject → List ProcessedImage
  | _, [] => []
  | imageIndex, obj :: rest =>
    if obj.width < 200 ∨ obj.height < 200 then processObjects pageNum imageIndex rest
    else if obj.drawOk then
      ProcessedImage.mk (mkImageName pageNum imageIndex) obj.data ("image/jpeg") none
        :: processObjects pageNum (imageIndex + 1) rest
    else processObjects pageNum imageIndex rest

/-- `processPage` of imageProcessor.ts: page 1 is special-cased to one
whole-page cover render named `image_p1_i1.jpg` with the description
`Magazine Cover`; other pages walk their raster objects. -/
def processPage (doc : PdfDoc) (pageNum : Nat) : List ProcessedImage :=
  if pageNum = 1 then
    [ProcessedImage.mk ("image_p1_i1.jpg") (doc.pages 1).wholeRender ("image/jpeg")
      (some ("Magazine Cover"))]
  else processObjects pageNum 1 (doc.pages pageNum).objects

/-- The shared `processedImages` array before the final sort, in canonical
page order; concurrent completion orders are modelled as permutations of
this list. -/
def preSortImages (doc : PdfDoc) : List ProcessedImage :=
  ((List.range' 1 doc.numPages).map (processPage doc)).flatten

/-- `getPage` of the final sort comparator:
`parseInt(name.split('_p')[1].split('_')[0])`. -/
def getPage (name : String) : Nat :=
  parseIntChars ((jsSplit1 '_' ((jsSplit2 '_' 'p' name.data).getD 1 [])).getD 0 [])

/-- `getIndex` of the final sort comparator:
`parseInt(name.split('_i')[1].split('.')[0])`. -/
def getIndex (name : String) : Nat :=
  parseIntChars ((jsSplit1 '.' ((jsSplit2 '_' 'i' name.data).getD 1 [])).getD 0 [])

/-- The comparator's order: by page ascending, then index ascending. -/
def imageLe (a b : ProcessedImage) : Bool :=
  decide (getPage a.name < getPage b.name)
    || (decide (getPage a.name = getPage b.name)
          && decide (getIndex a.name ≤ getIndex b.name))

/-- Ordered insertion under `imageLe`. -/
def insertImage (x : ProcessedImage) : List ProcessedImage → List ProcessedImage
  | [] => [x]
  | y :: r => if imageLe x y then x :: y :: r else y :: insertImage x r

/-- The final `processedImages.sort(...)` by (page, index). -/
def sortImages : List ProcessedImage → List ProcessedImage
  | [] => []
  | x :: r => insertImage x (sortImages r)

/-- `ImageExtractionResult` of imageProcessor.ts. -/
structure ImageExtractionResult where
  images : List ProcessedImage
  totalPages : Nat

/-- `extractAndProcessImages`: all pages processed (the bounded-concurrency
fan-out joins every page before returning), then the deterministic sort. -/
def extractAndProcessImages (doc : PdfDoc) : ImageExtractionResult :=
  ⟨sortImages (preSortImages doc), doc.numPages⟩

/-! ## The Gemini service module : retryWithBackoff, generateImageCaptions -/

/-- A JavaScript error value as inspected by the retry wrapper. -/
structure JsErr where
  status : Option Nat
  code : Option Nat
  message : Option String
deriving DecidableEq

/-- The rate-limit classification of `retryWithBackoff`: status or code
429, or a message containing `429`, or (lowercased) `quota` or
`resource_exhausted`. -/
def isRateLimit (err : JsErr) : Bool :=
  err.status == some 429 || err.code == some 429
    || (match err.message with
        | some m =>
          containsSub ['4', '2', '9'] m.data
            || containsSub ['q', 'u', 'o', 't', 'a'] (m.data.map Char.toLower)
            || containsSub
                ['r', 'e', 's', 'o', 'u', 'r', 'c', 'e', '_',
                 'e', 'x', 'h', 'a', 'u', 's', 't', 'e', 'd']
                (m.data.map Char.toLower)
        | none => false)

/-- Observable outcome of a `retryWithBackoff` run: the final result, how
many times the wrapped function was invoked, and the delays reported to
the `onRetry` callback, in order. -/
structure RetryResult (T : Type) where
  result : Except JsErr T
  calls : Nat
  delays : List Nat

instance instDecEqExcept (E T : Type) [DecidableEq E] [DecidableEq T] :
    DecidableEq (Except E T) := fun a b =>
  match a, b with
  | Except.ok x, Except.ok y => decidable_of_iff (x = y) (by simp)
  | Except.ok _, Except.error _ => isFalse (by simp)
  | Except.error _, Except.ok _ => isFalse (by simp)
  | Except.error x, Except.error y => decidable_of_iff (x = y) (by simp)

instance instDecEqRetryResult (T : Type) [DecidableEq T] : DecidableEq (RetryResult T) :=
  fun a b =>
    decidable_of_iff (a.result = b.result ∧ a.calls = b.calls ∧ a.delays = b.delays)
      (by cases a; cases b; simp)

/-- `retryWithBackoff` of the Gemini service: the wrapped call is modelled
as a function from the attempt number (0-based) to its outcome.  On a
rate-limit-class failure with budget remaining, report the current delay,
retry with the delay doubled; otherwise propagate. -/
def retryWithBackoffAux (T : Type) (f : Nat → Except JsErr T) :
    Nat → Nat → Nat → RetryResult T
  | retries, currentDelay, attempt =>
    match f attempt with
    | Except.ok v => ⟨Except.ok v, 1, []⟩
    | Except.error e =>
      match retries with
      | 0 => ⟨Except.error e, 1, []⟩
      | r + 1 =>
        if isRateLimit e then
          let tail := retryWithBackoffAux T f r (currentDelay * 2) (attempt + 1)
          ⟨tail.result, tail.calls + 1, currentDelay :: tail.delays⟩
        else ⟨Except.error e, 1, []⟩

/-- `retryWithBackoff` with its default budget: 5 retries, initial delay
2000ms. -/
def retryWithBackoff (T : Type) (f : Nat → Except JsErr T) : RetryResult T :=
  retryWithBackoffAux T f 5 2000 0

/-- Set the description of the first image with the given name
(`findIndex` + in-place field assignment of `generateImageCaptions`). -/
def setDescription : List ProcessedImage → String → String → List ProcessedImage
  | [], _, _ => []
  | img :: rest, nm, d =>
    if img.name == nm then
      ProcessedImage.mk img.name img.data img.mimeType (some d) :: rest
    else img :: setDescription rest nm d

/-- Apply every `{name, description}` entry of a parsed response. -/
def applyEntries (acc : List ProcessedImage) (es : List (String × String)) :
    List ProcessedImage :=
  es.foldl (fun a e => setDescription a e.1 e.2) acc

/-- The per-batch outcome of one captioning AI call, as seen after the
response handling of `generateImageCaptions`: `error` if the call (after
retries) or `JSON.parse` threw, `ok none` if the parse succeeded but was
not an array, `ok (some es)` for a parsed array of entries. -/
def CaptionResponses : Type := Nat → Except Unit (Option (List (String × String)))

/-- The batch loop of `generateImageCaptions` (batch size 8): a failed
batch changes nothing and the loop continues; a parsed array updates
descriptions by name.  Fuelled: each step consumes at least one image,
so fuel `length + 1` suffices. -/
def captionLoopAux (responses : CaptionResponses) :
    Nat → List ProcessedImage → Nat → List ProcessedImage → List ProcessedImage
  | 0, acc, _, _ => acc
  | fuel + 1, acc, b, rest =>
    if rest.isEmpty then acc
    else
      let acc' := match responses b with
        | Except.ok (some es) => applyEntries acc es
        | _ => acc
      captionLoopAux responses fuel acc' (b + 1) (rest.drop 8)

/-- The images actually sent to the captioner: everything except the cover
`image_p1_i1.jpg`. -/
def contentImagesOf (images : List ProcessedImage) : List ProcessedImage :=
  images.filter (fun img => !(img.name == "image_p1_i1.jpg"))

/-- `generateImageCaptions`: start from a clone of the full list, batch
the non-cover images by 8, and best-effort apply each batch's parsed
captions. -/
def generateImageCaptions (images : List ProcessedImage)
    (responses : CaptionResponses) : List ProcessedImage :=
  captionLoopAux responses ((contentImagesOf images).length + 1) images 0
    (contentImagesOf images)

/-! ## src/services/epubGenerator.ts : generateEpub -/

/-- A manifest `<item>` of the package descriptor. -/
structure ManifestItem where
  id : String
  href : String
  mediaType : String
  properties : Option String
deriving DecidableEq

/-- The produced archive, structurally: the written files (path,
content), and the logical content of the package descriptor (manifest
items, spine idrefs, whether the cover `<meta>` tag is present), plus the
captured TOC and content document for the proofs. -/
structure EpubPackage where
  files : List (String × String)
  manifest : List ManifestItem
  spine : List String
  coverMeta : Bool
  toc : List TocItem
  contentHtmlBody : String
  contentXhtml : String

/-- The stored `mimetype` entry's content. -/
def mimetypeContent : String := "application/epub+zip"

/-- `META-INF/container.xml`. -/
def containerXml : String :=
  "<?xml version=\"1.0\"?>\n<container version=\"1.0\" xmlns=\"urn:oasis:names:tc:opendocument:xmlns:container\">\n   <rootfiles>\n      <rootfile full-path=\"OEBPS/content.opf\" media-type=\"application/oebps-package+xml\"/>\n   </rootfiles>\n</container>"

/-- The stylesheet written to `OEBPS/styles.css` (braces escaped). -/
def cssContent : String :=
  "\n    body \x7b font-family: \"Helvetica Neue\", Helvetica, Arial, sans-serif; line-height: 1.6; padding: 20px; \x7d\n    h1 \x7b color: #2c3e50; page-break-before: always; text-align: center; margin-top: 2em; margin-bottom: 1em; \x7d\n    h2 \x7b color: #34495e; margin-top: 1.5em; border-bottom: 1px solid #eee; padding-bottom: 0.5em; \x7d\n    p \x7b margin-bottom: 1em; text-align: justify; \x7d\n    img \x7b max-width: 100%; height: auto; display: block; margin: 20px auto; border-radius: 4px; \x7d\n  "

/-- The dedicated cover page document `cover.xhtml`. -/
def coverXhtmlContent : String :=
  "<?xml version=\"1.0\" encoding=\"utf-8\"?>\n<!DOCTYPE html>\n<html xmlns=\"http://www.w3.org/1999/xhtml\" xmlns:epub=\"http://www.idpf.org/2007/ops\">\n<head>\n  <title>Cover</title>\n  <style type=\"text/css\">\n    body \x7b margin: 0; padding: 0; text-align: center; \x7d\n    div.cover \x7b height: 100vh; display: flex; align-items: center; justify-content: center; \x7d\n    img \x7b max-width: 100%; height: 100%; object-fit: contain; \x7d\n  </style>\n</head>\n<body>\n  <div class=\"cover\">\n    <img src=\"images/image_p1_i1.jpg\" alt=\"Cover Image\" />\n  </div>\n</body>\n</html>"

/-- One `<li>` of the navigation document (level-2 entries are indented). -/
def navLiItem (item : TocItem) : String :=
  ("<li" ++ (if item.level = 2 then " style=\"padding-left:20px;\"" else ⟨[]⟩)
    ++ "><a href=\"content.xhtml#" ++ item.id ++ "\">" ++ escapeXml item.text
    ++ "</a></li>")

/-- The navigation document `nav.xhtml`. -/
def navXhtmlOf (cleanTitle : String) (toc : List TocItem) : String :=
  let navLiItems := String.intercalate ("\n") (toc.map navLiItem)
  ("<?xml version=\"1.0\" encoding=\"utf-8\"?>\n<!DOCTYPE html>\n<html xmlns=\"http://www.w3.org/1999/xhtml\" xmlns:epub=\"http://www.idpf.org/2007/ops\">\n<head>\n  <title>"
    ++ cleanTitle
    ++ "</title>\n  <link rel=\"stylesheet\" type=\"text/css\" href=\"styles.css\" />\n</head>\n<body>\n  <nav epub:type=\"toc\" id=\"toc\">\n    <h1>Table of Contents</h1>\n    <ol>\n      "
    ++ (if navLiItems.data.isEmpty then "<li><a href=\"content.xhtml\">Begin Reading</a></li>"
        else navLiItems)
    ++ "\n    </ol>\n  </nav>\n</body>\n</html>")

/-- One `navPoint` of the legacy navigation map, with explicit play order. -/
def navPointOf (idx : Nat) (item : TocItem) : String :=
  ("\n    <navPoint id=\"navPoint-" ++ natStr (idx + 1) ++ "\" playOrder=\""
    ++ natStr (idx + 1) ++ "\">\n      <navLabel><text>" ++ escapeXml item.text
    ++ "</text></navLabel>\n      <content src=\"content.xhtml#" ++ item.id
    ++ "\"/>\n    </navPoint>\n  ")

/-- The legacy navigation map `toc.ncx`. -/
def tocNcxOf (uniqueId cleanTitle : String) (toc : List TocItem) : String :=
  let navPoints := String.intercalate ("\n") (toc.enum.map (fun p => navPointOf p.1 p.2))
  ("<?xml version=\"1.0\" encoding=\"UTF-8\"?>\n<ncx xmlns=\"http://www.daisy.org/z3986/2005/ncx/\" version=\"2005-1\">\n  <head>\n    <meta name=\"dtb:uid\" content=\"urn:uuid:"
    ++ uniqueId
    ++ "\"/>\n    <meta name=\"dtb:depth\" content=\"2\"/>\n  </head>\n  <docTitle><text>"
    ++ cleanTitle ++ "</text></docTitle>\n  <navMap>\n    "
    ++ (if navPoints.data.isEmpty then
          "<navPoint id=\"navPoint-1\" playOrder=\"1\"><navLabel><text>Start</text></navLabel><content src=\"content.xhtml\"/></navPoint>"
        else navPoints)
    ++ "\n  </navMap>\n</ncx>")

/-- The transformed content document `content.xhtml`. -/
def contentXhtmlOf (cleanTitle body : String) : String :=
  ("<?xml version=\"1.0\" encoding=\"utf-8\"?>\n<!DOCTYPE html>\n<html xmlns=\"http://www.w3.org/1999/xhtml\" xmlns:epub=\"http://www.idpf.org/2007/ops\">\n<head>\n  <title>"
    ++ cleanTitle
    ++ "</title>\n  <link rel=\"stylesheet\" type=\"text/css\" href=\"styles.css\" />\n</head>\n<body>\n  "
    ++ body ++ "\n</body>\n</html>")

/-- Manifest item for one written image: id is the filename with dots
replaced by underscores, except the cover image, which gets the id and
property `cover-image`. -/
def imageManifestItem (img : ProcessedImage) : ManifestItem :=
  if img.name == "image_p1_i1.jpg" then
    ManifestItem.mk ("cover-image") (("images/" : String) ++ img.name) img.mimeType
      (some ("cover-image"))
  else
    ManifestItem.mk ⟨replaceChar '.' ['_'] img.name.data⟩ (("images/" : String) ++ img.name)
      img.mimeType none

/-- The manifest of the package descriptor, in template order: the cover
page item when present, the fixed items, then one item per image. -/
def manifestOf (hasCover : Bool) (images : List ProcessedImage) : List ManifestItem :=
  (if hasCover then
     [ManifestItem.mk ("cover") ("cover.xhtml") ("application/xhtml+xml") none]
   else [])
    ++ [ManifestItem.mk ("nav") ("nav.xhtml") ("application/xhtml+xml") (some ("nav")),
        ManifestItem.mk ("ncx") ("toc.ncx") ("application/x-dtbncx+xml") none,
        ManifestItem.mk ("styles") ("styles.css") ("text/css") none,
        ManifestItem.mk ("content") ("content.xhtml") ("application/xhtml+xml") none]
    ++ images.map imageManifestItem

/-- The spine idrefs, in reading order: cover first when present, then
navigation, then content. -/
def spineOf (hasCover : Bool) : List String :=
  (if hasCover then [("cover" : String)] else []) ++ [("nav" : String), ("content" : String)]

/-- Serialize one manifest item as in the opf template. -/
def renderManifestItem (it : ManifestItem) : String :=
  ("<item id=\"" ++ it.id ++ "\" href=\"" ++ it.href ++ "\" media-type=\"" ++ it.mediaType
    ++ "\""
    ++ (match it.properties with
        | some p => (" properties=\"" ++ p ++ "\"")
        | none => ⟨[]⟩)
    ++ "/>")

/-- The package descriptor `content.opf` as a string. -/
def opfContentOf (uniqueId timestamp cleanTitle : String) (hasCover : Bool)
    (manifest : List ManifestItem) (spine : List String) : String :=
  ("<?xml version=\"1.0\" encoding=\"UTF-8\"?>\n<package xmlns=\"http://www.idpf.org/2007/opf\" unique-identifier=\"BookID\" version=\"3.0\">\n  <metadata xmlns:dc=\"http://purl.org/dc/elements/1.1/\">\n    <dc:title>"
    ++ cleanTitle
    ++ "</dc:title>\n    <dc:creator>MagToEpub AI</dc:creator>\n    <dc:identifier id=\"BookID\">urn:uuid:"
    ++ uniqueId ++ "</dc:identifier>\n    <dc:language>en</dc:language>\n    <meta property=\"dcterms:modified\">"
    ++ timestamp ++ "</meta>\n    "
    ++ (if hasCover then "<meta name=\"cover\" content=\"cover-image\"/>" else ⟨[]⟩)
    ++ "\n  </metadata>\n  <manifest>\n    "
    ++ String.intercalate ("\n") (manifest.map renderManifestItem)
    ++ "\n  </manifest>\n  <spine toc=\"ncx\">\n    "
    ++ String.intercalate ("\n")
        (spine.map (fun idref => ("<itemref idref=\"" ++ idref ++ "\"/>")))
    ++ "\n  </spine>\n</package>")

/-- `generateEpub` of epubGenerator.ts.  The nondeterministically generated
uuid and timestamp are passed in as parameters; the archive is returned
as a structural package value instead of being downloaded. -/
def generateEpub (uniqueId timestamp title markdownContent : String)
    (images : List ProcessedImage) : EpubPackage :=
  let cleanTitle := escapeXml title
  let hasCover := images.any (fun img => img.name == "image_p1_i1.jpg")
  let parsed := markedParse markdownContent
  let contentHtmlBody := parsed.1
  let toc := parsed.2
  let contentXhtml := contentXhtmlOf cleanTitle contentHtmlBody
  let manifest := manifestOf hasCover images
  let spine := spineOf hasCover
  EpubPackage.mk
    ([(("mimetype" : String), mimetypeContent),
      (("META-INF/container.xml" : String), containerXml),
      (("OEBPS/styles.css" : String), cssContent),
      (("OEBPS/nav.xhtml" : String), navXhtmlOf cleanTitle toc),
      (("OEBPS/toc.ncx" : String), tocNcxOf uniqueId cleanTitle toc)]
      ++ (if hasCover then [(("OEBPS/cover.xhtml" : String), coverXhtmlContent)] else [])
      ++ [(("OEBPS/content.xhtml" : String), contentXhtml)]
      ++ images.map (fun img => ((("OEBPS/images/" : String) ++ img.name), img.data))
      ++ [(("OEBPS/content.opf" : String),
           opfContentOf uniqueId timestamp cleanTitle hasCover manifest spine)])
    manifest spine hasCover toc contentHtmlBody contentXhtml

/-- Invariant of the batching loop state: the running character counter is
the weight sum of the open batch, the open batch respects the page cap
and (when it has at least two pages) the character cap, and every emitted
batch is nonempty, within the page cap, and within the character cap
unless it is a singleton. -/
def BatchInv (doc : PdfDoc) (s : BatchState) : Prop :=
  s.currentBatchChars = (s.currentBatch.map (pageTextLength doc)).sum
    ∧ s.currentBatch.length ≤ MAX_PAGES_PER_BATCH
    ∧ (2 ≤ s.currentBatch.length → s.currentBatchChars ≤ MAX_CHARS_PER_BATCH)
    ∧ ∀ b ∈ s.batches,
        b ≠ [] ∧ b.length ≤ MAX_PAGES_PER_BATCH
          ∧ (2 ≤ b.length → (b.map (pageTextLength doc)).sum ≤ MAX_CHARS_PER_BATCH)

/-- Example document for the witnesses: ten pages of estimated weight
1500 each, no raster objects. -/
def exDoc10 : PdfDoc := ⟨10, fun _ => ⟨Except.ok [1500], [], "r"⟩⟩

/-- The (page, index) key parsed from an image filename by the sort
comparator. -/
def imageKey (img : ProcessedImage) : Nat × Nat := (getPage img.name, getIndex img.name)

/-- Example wrapped call for the witnesses: three rate-limited failures,
then success. -/
def exF2 : Nat → Except JsErr Nat := fun j =>
  if j < 3 then Except.error ⟨some 429, none, none⟩ else Except.ok 7

/-- Example document for the witnesses: three pages, page 2 holding two
large drawable raster objects and one too-small object, page 3 one. -/
def exDocImgs : PdfDoc :=
  ⟨3, fun i =>
    if i = 2 then
      ⟨Except.ok [], [⟨300, 300, true, "a"⟩, ⟨100, 300, true, "b"⟩, ⟨250, 250, true, "c"⟩], "r2"⟩
    else if i = 3 then ⟨Except.ok [], [⟨500, 500, true, "d"⟩], "r3"⟩
    else ⟨Except.ok [], [⟨999, 999, true, "z"⟩], "cover"⟩⟩

/-- An out-of-order completion order of `exDocImgs`'s page tasks. -/
def exPermImages : List ProcessedImage :=
  [⟨"image_p3_i1.jpg", "d", "image/jpeg", none⟩,
   ⟨"image_p2_i2.jpg", "c", "image/jpeg", none⟩,
   ⟨"image_p1_i1.jpg", "cover", "image/jpeg", some ("Magazine Cover")⟩,
   ⟨"image_p2_i1.jpg", "a", "image/jpeg", none⟩]

/-- `p` occurs as a contiguous substring of `s`. -/
def Occurs (p s : List Char) : Prop := ∃ x y, s = x ++ (p ++ y)

/-- Example response oracle: every captioning batch fails. -/
def exRespErr : CaptionResponses := fun _ => Except.error ()

/-- Example response oracle: every batch parses to one entry for the
page-2 image. -/
def exRespOk : CaptionResponses := fun _ => Except.ok (some [("image_p2_i1.jpg", "dog")])

/-! ## Theorems -/

theorem batchStep_inv (doc : PdfDoc) (s : BatchState) (i : Nat) (h : BatchInv doc s) :
    BatchInv doc (batchStep doc s i)
      ∧ (batchStep doc s i).batches.flatten ++ (batchStep doc s i).currentBatch
          = s.batches.flatten ++ s.currentBatch ++ [i] := by
  obtain ⟨hB, hD, hE, hC⟩ := h
  unfold batchStep
  by_cases hcond :
      (s.currentBatchChars + pageTextLength doc i > MAX_CHARS_PER_BATCH
          ∨ s.currentBatch.length ≥ MAX_PAGES_PER_BATCH)
        ∧ s.currentBatch.length > 0
  · rw [if_pos hcond]
    refine ⟨⟨by simp, by simp [MAX_PAGES_PER_BATCH], by simp, ?_⟩, by simp⟩
    intro b hb
    rcases List.mem_append.1 hb with hb | hb
    · exact hC b hb
    · rcases List.mem_singleton.1 hb with rfl
      refine ⟨?_, hD, fun h2 => hB ▸ hE h2⟩
      intro hnil
      rw [hnil] at hcond
      simp at hcond
  · rw [if_neg hcond]
    refine ⟨⟨by simp [hB], ?_, ?_, hC⟩, by simp⟩
    · by_cases hlen : s.currentBatch.length = 0
      · simp only [List.length_append, List.length_singleton, hlen, MAX_PAGES_PER_BATCH]
        omega
      · have hAB : ¬(s.currentBatchChars + pageTextLength doc i > MAX_CHARS_PER_BATCH
            ∨ s.currentBatch.length ≥ MAX_PAGES_PER_BATCH) :=
          fun hor => hcond ⟨hor, Nat.pos_of_ne_zero hlen⟩
        simp only [List.length_append, List.length_singleton]
        omega
    · intro h2
      show s.currentBatchChars + pageTextLength doc i ≤ MAX_CHARS_PER_BATCH
      have h2' : 2 ≤ s.currentBatch.length + 1 := by
        simpa using h2
      by_cases hlen : s.currentBatch.length = 0
      · omega
      · have hAB : ¬(s.currentBatchChars + pageTextLength doc i > MAX_CHARS_PER_BATCH
            ∨ s.currentBatch.length ≥ MAX_PAGES_PER_BATCH) :=
          fun hor => hcond ⟨hor, Nat.pos_of_ne_zero hlen⟩
        omega

theorem batchLoop_inv (doc : PdfDoc) (ps : List Nat) (s : BatchState) (h : BatchInv doc s) :
    BatchInv doc (batchLoop doc ps s)
      ∧ (batchLoop doc ps s).batches.flatten ++ (batchLoop doc ps s).currentBatch
          = s.batches.flatten ++ s.currentBatch ++ ps := by
  induction ps generalizing s with
  | nil => simpa using ⟨h, rfl⟩
  | cons i rest ih =>
    obtain ⟨h1, h2⟩ := batchStep_inv doc s i h
    obtain ⟨h3, h4⟩ := ih _ h1
    refine ⟨h3, ?_⟩
    show (batchLoop doc rest (batchStep doc s i)).batches.flatten
        ++ (batchLoop doc rest (batchStep doc s i)).currentBatch = _
    rw [h4, h2]
    simp

/-- Claim C1: for every document (page weights derived from the per-page
text probe, with the fallback weight on failure), `calculateDynamicBatches`
partitions `1..N` contiguously and completely, no batch exceeds
`MAX_PAGES_PER_BATCH` pages, every batch of two or more pages stays within
`MAX_CHARS_PER_BATCH` estimated characters, and a page whose own weight
exceeds the cap still forms a valid singleton batch. -/
theorem calculateDynamicBatches_spec (doc : PdfDoc) :
    (calculateDynamicBatches doc).flatten = List.range' 1 doc.numPages
      ∧ (∀ b ∈ calculateDynamicBatches doc, b ≠ [] ∧ b.length ≤ MAX_PAGES_PER_BATCH)
      ∧ (∀ b ∈ calculateDynamicBatches doc, 2 ≤ b.length →
          (b.map (pageTextLength doc)).sum ≤ MAX_CHARS_PER_BATCH)
      ∧ (∀ b ∈ calculateDynamicBatches doc, ∀ p ∈ b,
          MAX_CHARS_PER_BATCH < pageTextLength doc p → b = [p]) := by
  have hinit : BatchInv doc ⟨[], [], 0⟩ := by
    refine ⟨by simp, by simp, by simp, by simp⟩
  obtain ⟨⟨hB, hD, hE, hC⟩, hflat⟩ :=
    batchLoop_inv doc (List.range' 1 doc.numPages) ⟨[], [], 0⟩ hinit
  set final := batchLoop doc (List.range' 1 doc.numPages) ⟨[], [], 0⟩ with hfinal
  have hflat' : final.batches.flatten ++ final.currentBatch = List.range' 1 doc.numPages := by
    simpa using hflat
  have hbatches : ∀ b ∈ calculateDynamicBatches doc,
      b ≠ [] ∧ b.length ≤ MAX_PAGES_PER_BATCH
        ∧ (2 ≤ b.length → (b.map (pageTextLength doc)).sum ≤ MAX_CHARS_PER_BATCH) := by
    intro b hb
    unfold calculateDynamicBatches at hb
    rw [← hfinal] at hb
    by_cases hcur : final.currentBatch.length > 0
    · rw [if_pos hcur] at hb
      rcases List.mem_append.1 hb with hb | hb
      · exact hC b hb
      · rcases List.mem_singleton.1 hb with rfl
        refine ⟨fun hnil => by rw [hnil] at hcur; simp at hcur, hD, fun h2 => hB ▸ hE h2⟩
    · rw [if_neg hcur] at hb
      exact hC b hb
  have hjoin : (calculateDynamicBatches doc).flatten = List.range' 1 doc.numPages := by
    unfold calculateDynamicBatches
    rw [← hfinal]
    by_cases hcur : final.currentBatch.length > 0
    · rw [if_pos hcur]
      simpa using hflat'
    · rw [if_neg hcur]
      have : final.currentBatch = [] := List.length_eq_zero.1 (Nat.eq_zero_of_not_pos hcur)
      rw [this, List.append_nil] at hflat'
      exact hflat'
  refine ⟨hjoin, fun b hb => ⟨(hbatches b hb).1, (hbatches b hb).2.1⟩,
    fun b hb => (hbatches b hb).2.2, ?_⟩
  intro b hb p hp hheavy
  have hchars := (hbatches b hb).2.2
  have hlen : b.length < 2 := by
    by_contra hge
    have hsum := hchars (Nat.le_of_not_lt hge)
    have : pageTextLength doc p ≤ (b.map (pageTextLength doc)).sum :=
      List.single_le_sum (fun x _ => Nat.zero_le x) _ (List.mem_map_of_mem _ hp)
    omega
  have hone : b.length = 1 := by
    have hpos : 0 < b.length := List.length_pos.2 (hbatches b hb).1
    omega
  obtain ⟨q, rfl⟩ := List.length_eq_one.1 hone
  rcases List.mem_singleton.1 hp with rfl
  rfl

theorem calculateDynamicBatches_spec_witness :
    calculateDynamicBatches exDoc10 = [[1, 2, 3, 4, 5, 6, 7, 8], [9, 10]]
      ∧ (calculateDynamicBatches exDoc10).flatten = List.range' 1 exDoc10.numPages :=
  ⟨by decide, (calculateDynamicBatches_spec exDoc10).1⟩

theorem retryAux_rl_prefix (T : Type) (f : Nat → Except JsErr T) (k : Nat) :
    ∀ R D a : Nat, k ≤ R →
      (∀ j, j < k → ∃ e, f (a + j) = Except.error e ∧ isRateLimit e = true) →
      retryWithBackoffAux T f R D a
        = ⟨(retryWithBackoffAux T f (R - k) (D * 2 ^ k) (a + k)).result,
           (retryWithBackoffAux T f (R - k) (D * 2 ^ k) (a + k)).calls + k,
           (List.range k).map (fun j => D * 2 ^ j)
             ++ (retryWithBackoffAux T f (R - k) (D * 2 ^ k) (a + k)).delays⟩ := by
  induction k with
  | zero =>
    intro R D a _ _
    simp
  | succ k ih =>
    intro R D a hk hfail
    obtain ⟨e0, he0, hrl0⟩ := hfail 0 (Nat.succ_pos k)
    rw [Nat.add_zero] at he0
    obtain ⟨r, rfl⟩ : ∃ r, R = r + 1 := ⟨R - 1, by omega⟩
    have hstep : retryWithBackoffAux T f (r + 1) D a
        = ⟨(retryWithBackoffAux T f r (D * 2) (a + 1)).result,
           (retryWithBackoffAux T f r (D * 2) (a + 1)).calls + 1,
           D :: (retryWithBackoffAux T f r (D * 2) (a + 1)).delays⟩ := by
      rw [retryWithBackoffAux]
      rw [he0]
      simp [hrl0]
    have hfail' : ∀ j, j < k → ∃ e, f (a + 1 + j) = Except.error e ∧ isRateLimit e = true := by
      intro j hj
      have := hfail (j + 1) (Nat.succ_lt_succ hj)
      rwa [show a + (j + 1) = a + 1 + j by omega] at this
    have hrec := ih r (D * 2) (a + 1) (by omega) hfail'
    rw [hstep, hrec]
    have harith1 : r - k = r + 1 - (k + 1) := by omega
    have harith2 : D * 2 * 2 ^ k = D * 2 ^ (k + 1) := by ring
    have harith3 : a + 1 + k = a + (k + 1) := by omega
    rw [harith1, harith2, harith3]
    have hdelays : D :: (List.range k).map (fun j => D * 2 * 2 ^ j)
        = (List.range (k + 1)).map (fun j => D * 2 ^ j) := by
      rw [List.range_succ_eq_map]
      simp only [List.map_cons, List.map_map]
      have hfun : (fun j => D * 2 * 2 ^ j) = ((fun j => D * 2 ^ j) ∘ Nat.succ) := by
        funext j
        simp only [Function.comp_apply, Nat.succ_eq_add_one, pow_succ]
        ring
      rw [hfun]
      simp
    refine congrArg (fun dl => RetryResult.mk _ _ dl) ?_
    rw [← List.cons_append, hdelays]

/-- Claim C2: with the default budget (5 retries, initial delay 2000ms),
a call failing `k ≤ 5` times with rate-limit-class errors is invoked
`k + 1` times in total with pre-retry delays `2000·2^0 … 2000·2^(k-1)`
reported to the callback, whether the attempt after the failures succeeds
or fails with a non-rate-limit-class error (which propagates immediately
with no further retry); when the budget is exhausted (k = 5) the last
error propagates after 6 invocations. -/
theorem retryWithBackoff_spec (T : Type) (f : Nat → Except JsErr T) (k : Nat)
    (hk : k ≤ 5)
    (hfail : ∀ j, j < k → ∃ e, f j = Except.error e ∧ isRateLimit e = true) :
    (∀ v, f k = Except.ok v →
        retryWithBackoff T f
          = ⟨Except.ok v, k + 1, (List.range k).map (fun j => 2000 * 2 ^ j)⟩)
      ∧ (∀ e, f k = Except.error e → isRateLimit e = false →
          retryWithBackoff T f
            = ⟨Except.error e, k + 1, (List.range k).map (fun j => 2000 * 2 ^ j)⟩)
      ∧ (k = 5 → ∀ e, f 5 = Except.error e → isRateLimit e = true →
          retryWithBackoff T f = ⟨Except.error e, 6, [2000, 4000, 8000, 16000, 32000]⟩) := by
  have hfail0 : ∀ j, j < k → ∃ e, f (0 + j) = Except.error e ∧ isRateLimit e = true := by
    intro j hj
    rw [Nat.zero_add]
    exact hfail j hj
  have hpre := retryAux_rl_prefix T f k 5 2000 0 hk hfail0
  rw [Nat.zero_add] at hpre
  refine ⟨?_, ?_, ?_⟩
  · intro v hv
    have hinner : retryWithBackoffAux T f (5 - k) (2000 * 2 ^ k) k
        = ⟨Except.ok v, 1, []⟩ := by
      rw [retryWithBackoffAux, hv]
    rw [retryWithBackoff, hpre, hinner]
    simp [Nat.add_comm]
  · intro e he hnrl
    have hinner : retryWithBackoffAux T f (5 - k) (2000 * 2 ^ k) k
        = ⟨Except.error e, 1, []⟩ := by
      rw [retryWithBackoffAux, he]
      match h5 : 5 - k with
      | 0 => rfl
      | r + 1 => simp [hnrl]
    rw [retryWithBackoff, hpre, hinner]
    simp [Nat.add_comm]
  · intro hk5 e he hrl
    subst hk5
    have hinner : retryWithBackoffAux T f (5 - 5) (2000 * 2 ^ 5) 5
        = ⟨Except.error e, 1, []⟩ := by
      rw [retryWithBackoffAux, he]
    rw [retryWithBackoff, hpre, hinner]
    refine congrArg (fun dl => RetryResult.mk _ _ dl) ?_
    simp
    decide

theorem retryWithBackoff_spec_witness :
    retryWithBackoff Nat exF2 = ⟨Except.ok 7, 4, [2000, 4000, 8000]⟩ := by
  have h := (retryWithBackoff_spec Nat exF2 3 (by decide)
    (fun j hj => ⟨⟨some 429, none, none⟩, by simp [exF2, hj], by decide⟩)).1 7
      (by simp [exF2])
  rw [h]
  refine congrArg (fun dl => RetryResult.mk _ _ dl) ?_
  decide

theorem natToCharsAux_fuel : ∀ n fuel₁ fuel₂ : Nat, n < fuel₁ → n < fuel₂ →
    natToCharsAux fuel₁ n = natToCharsAux fuel₂ n := by
  intro n
  induction n using Nat.strong_induction_on with
  | _ n ih =>
    intro f1 f2 h1 h2
    obtain ⟨g1, rfl⟩ : ∃ g, f1 = g + 1 := ⟨f1 - 1, by omega⟩
    obtain ⟨g2, rfl⟩ : ∃ g, f2 = g + 1 := ⟨f2 - 1, by omega⟩
    rw [natToCharsAux, natToCharsAux]
    by_cases h10 : n < 10
    · rw [if_pos h10, if_pos h10]
    · rw [if_neg h10, if_neg h10]
      have hdiv : n / 10 < n := Nat.div_lt_self (by omega) (by norm_num)
      rw [ih (n / 10) hdiv g1 g2 (by omega) (by omega)]

theorem natToChars_unfold (n : Nat) : natToChars n
    = if n < 10 then [digitChar n] else natToChars (n / 10) ++ [digitChar (n % 10)] := by
  rw [natToChars, natToCharsAux]
  by_cases h10 : n < 10
  · rw [if_pos h10, if_pos h10]
  · rw [if_neg h10, if_neg h10, natToChars]
    rw [natToCharsAux_fuel (n / 10) n (n / 10 + 1)
      (Nat.div_lt_self (by omega) (by norm_num)) (Nat.lt_succ_self _)]

theorem natToChars_ne_nil (n : Nat) : natToChars n ≠ [] := by
  rw [natToChars_unfold]
  by_cases h10 : n < 10
  · rw [if_pos h10]
    simp
  · rw [if_neg h10]
    simp

theorem digitChar_isDigit (n : Nat) : isDigitChar (digitChar n) = true := by
  match n with
  | 0 | 1 | 2 | 3 | 4 | 5 | 6 | 7 | 8 => decide
  | m + 9 =>
    show isDigitChar '9' = true
    decide

theorem digitVal_digitChar (n : Nat) (h : n < 10) : digitVal (digitChar n) = n := by
  interval_cases n <;> decide

theorem natToChars_all_digit (n : Nat) : ∀ c ∈ natToChars n, isDigitChar c = true := by
  induction n using Nat.strong_induction_on with
  | _ n ih =>
    rw [natToChars_unfold]
    by_cases h10 : n < 10
    · rw [if_pos h10]
      intro c hc
      rcases List.mem_singleton.1 hc with rfl
      exact digitChar_isDigit n
    · rw [if_neg h10]
      intro c hc
      rcases List.mem_append.1 hc with hc | hc
      · exact ih (n / 10) (Nat.div_lt_self (by omega) (by norm_num)) c hc
      · rcases List.mem_singleton.1 hc with rfl
        exact digitChar_isDigit (n % 10)

theorem digit_ne {c d : Char} (h1 : isDigitChar c = true) (h2 : isDigitChar d = false) :
    c ≠ d := by
  intro he
  rw [he] at h1
  rw [h1] at h2
  cases h2

theorem foldl_natToChars (n : Nat) : ∀ acc : Nat,
    (natToChars n).foldl (fun a c => a * 10 + digitVal c) acc
      = acc * 10 ^ (natToChars n).length + n := by
  induction n using Nat.strong_induction_on with
  | _ n ih =>
    intro acc
    rw [natToChars_unfold]
    by_cases h10 : n < 10
    · rw [if_pos h10]
      simp [digitVal_digitChar n h10]
    · rw [if_neg h10]
      rw [List.foldl_append]
      rw [ih (n / 10) (Nat.div_lt_self (by omega) (by norm_num)) acc]
      have hmod : digitVal (digitChar (n % 10)) = n % 10 :=
        digitVal_digitChar (n % 10) (Nat.mod_lt n (by norm_num))
      have hdm : 10 * (n / 10) + n % 10 = n := Nat.div_add_mod n 10
      simp only [List.foldl_cons, List.foldl_nil, List.length_append,
        List.length_singleton, hmod]
      calc (acc * 10 ^ (natToChars (n / 10)).length + n / 10) * 10 + n % 10
          = acc * (10 ^ (natToChars (n / 10)).length * 10)
              + (10 * (n / 10) + n % 10) := by ring
        _ = acc * 10 ^ ((natToChars (n / 10)).length + 1) + n := by rw [hdm, pow_succ]

theorem takeWhile_all {p : Char → Bool} : ∀ l : List Char,
    (∀ c ∈ l, p c = true) → l.takeWhile p = l := by
  intro l h
  induction l with
  | nil => rfl
  | cons c r ih =>
    rw [List.takeWhile_cons, h c (List.mem_cons_self c r)]
    rw [ih fun d hd => h d (List.mem_cons_of_mem c hd)]
    simp

theorem parseIntChars_natToChars (n : Nat) : parseIntChars (natToChars n) = n := by
  rw [parseIntChars, takeWhile_all _ (natToChars_all_digit n), foldl_natToChars]
  simp

theorem pairFree_cons_ne {a b c : Char} {t : List Char} (hc : c ≠ a)
    (ht : pairFree a b t = true) : pairFree a b (c :: t) = true := by
  cases t with
  | nil => rfl
  | cons d r =>
    rw [pairFree]
    simp only [Bool.and_eq_true, Bool.not_eq_true']
    exact ⟨by simp [hc], ht⟩

theorem pairFree_cons_snd {a b c d : Char} {r : List Char} (hd : d ≠ b)
    (ht : pairFree a b (d :: r) = true) : pairFree a b (c :: d :: r) = true := by
  rw [pairFree]
  simp only [Bool.and_eq_true, Bool.not_eq_true']
  exact ⟨by simp [hd], ht⟩

theorem pairFree_all_ne {a b : Char} : ∀ l : List Char,
    (∀ c ∈ l, c ≠ a) → pairFree a b l = true := by
  intro l h
  induction l with
  | nil => rfl
  | cons c r ih =>
    exact pairFree_cons_ne (h c (List.mem_cons_self c r))
      (ih fun d hd => h d (List.mem_cons_of_mem c hd))

theorem pairFree_append_left {a b : Char} : ∀ x y : List Char,
    (∀ c ∈ x, c ≠ a) → pairFree a b y = true → pairFree a b (x ++ y) = true := by
  intro x y hx hy
  induction x with
  | nil => simpa using hy
  | cons c r ih =>
    rw [List.cons_append]
    exact pairFree_cons_ne (hx c (List.mem_cons_self c r))
      (ih fun d hd => hx d (List.mem_cons_of_mem c hd))

theorem pairFree_dropLast_ne {a b : Char} : ∀ l : List Char,
    (∀ c ∈ l.dropLast, c ≠ a) → pairFree a b l = true := by
  intro l
  induction l with
  | nil => intro _; rfl
  | cons c r ih =>
    intro h
    cases r with
    | nil => rfl
    | cons d r' =>
      have hdl : (c :: d :: r').dropLast = c :: (d :: r').dropLast := rfl
      rw [hdl] at h
      refine pairFree_cons_ne (h c (List.mem_cons_self _ _)) ?_
      exact ih fun e he => h e (List.mem_cons_of_mem c he)

theorem jsSplit1_none {a : Char} : ∀ l : List Char, a ∉ l → jsSplit1 a l = [l] := by
  intro l h
  induction l with
  | nil => rfl
  | cons c r ih =>
    rw [jsSplit1]
    have hca : ¬(c = a) := fun e => h (e ▸ List.mem_cons_self c r)
    rw [if_neg hca, ih fun hm => h (List.mem_cons_of_mem c hm)]
    rfl

theorem jsSplit1_first {a : Char} : ∀ l1 l2 : List Char, a ∉ l1 →
    jsSplit1 a (l1 ++ a :: l2) = l1 :: jsSplit1 a l2 := by
  intro l1 l2 h
  induction l1 with
  | nil =>
    rw [List.nil_append, jsSplit1, if_pos rfl]
  | cons c r ih =>
    rw [List.cons_append, jsSplit1]
    have hca : ¬(c = a) := fun e => h (e ▸ List.mem_cons_self c r)
    rw [if_neg hca, ih fun hm => h (List.mem_cons_of_mem c hm)]
    rfl

theorem jsSplit2_none {a b : Char} : ∀ l : List Char,
    pairFree a b l = true → jsSplit2 a b l = [l] := by
  intro l
  induction l with
  | nil => intro _; rfl
  | cons c r ih =>
    intro h
    cases r with
    | nil => rfl
    | cons d r' =>
      rw [pairFree] at h
      simp only [Bool.and_eq_true, Bool.not_eq_true'] at h
      rw [jsSplit2]
      have hcond : ¬(c = a ∧ d = b) := by
        intro ⟨e1, e2⟩
        rw [e1, e2] at h
        simp at h
      rw [if_neg hcond, ih h.2]
      rfl

theorem pairFree_head {a b c d : Char} {r : List Char}
    (h : pairFree a b (c :: d :: r) = true) :
    ¬(c = a ∧ d = b) ∧ pairFree a b (d :: r) = true := by
  rw [pairFree] at h
  simp only [Bool.and_eq_true, Bool.not_eq_true'] at h
  refine ⟨?_, h.2⟩
  intro ⟨e1, e2⟩
  subst e1
  subst e2
  simp at h

theorem jsSplit2_first {a b : Char} : ∀ l1 l2 : List Char,
    pairFree a b (l1 ++ [a]) = true →
    jsSplit2 a b (l1 ++ a :: b :: l2) = l1 :: jsSplit2 a b l2 := by
  intro l1
  induction l1 with
  | nil =>
    intro l2 _
    rw [List.nil_append, jsSplit2, if_pos ⟨rfl, rfl⟩]
  | cons c r ih =>
    intro l2 h
    cases r with
    | nil =>
      obtain ⟨hcond, -⟩ := pairFree_head (show pairFree a b (c :: a :: []) = true by simpa using h)
      show jsSplit2 a b (c :: a :: b :: l2) = [c] :: jsSplit2 a b l2
      rw [jsSplit2, if_neg hcond]
      rw [jsSplit2, if_pos ⟨rfl, rfl⟩]
      rfl
    | cons d r' =>
      obtain ⟨hcond, htail⟩ :=
        pairFree_head (show pairFree a b (c :: d :: (r' ++ [a])) = true by simpa using h)
      show jsSplit2 a b (c :: (d :: (r' ++ a :: b :: l2))) = (c :: d :: r') :: jsSplit2 a b l2
      rw [jsSplit2, if_neg hcond]
      rw [show d :: (r' ++ a :: b :: l2) = (d :: r') ++ a :: b :: l2 from rfl]
      rw [ih l2 (show pairFree a b ((d :: r') ++ [a]) = true by simpa using htail)]
      rfl

theorem digit_ne_of_mem {l : List Char} {d : Char} (hl : ∀ c ∈ l, isDigitChar c = true)
    (hd : isDigitChar d = false) : ∀ c ∈ l, c ≠ d :=
  fun c hc => digit_ne (hl c hc) hd

theorem getPage_mk (p i : Nat) : getPage (mkImageName p i) = p := by
  have hP := natToChars_all_digit p
  have hI := natToChars_all_digit i
  have hdata : (mkImageName p i).data
      = ['i', 'm', 'a', 'g', 'e'] ++ '_' :: 'p'
          :: (natToChars p ++ '_' :: 'i' :: (natToChars i ++ ['.', 'j', 'p', 'g'])) := by
    show ['i', 'm', 'a', 'g', 'e', '_', 'p'] ++ natToChars p
        ++ ['_', 'i'] ++ natToChars i ++ ['.', 'j', 'p', 'g'] = _
    simp
  rw [getPage, hdata]
  rw [jsSplit2_first ['i', 'm', 'a', 'g', 'e'] _ (by decide)]
  have hnone : jsSplit2 '_' 'p'
      (natToChars p ++ '_' :: 'i' :: (natToChars i ++ ['.', 'j', 'p', 'g']))
      = [natToChars p ++ '_' :: 'i' :: (natToChars i ++ ['.', 'j', 'p', 'g'])] := by
    refine jsSplit2_none _ ?_
    refine pairFree_append_left _ _ (digit_ne_of_mem hP (by decide)) ?_
    refine pairFree_cons_snd (by decide) ?_
    refine pairFree_all_ne _ ?_
    intro c hc
    rcases List.mem_cons.1 hc with rfl | hc
    · decide
    rcases List.mem_append.1 hc with hc | hc
    · exact digit_ne (hI c hc) (by decide)
    · fin_cases hc <;> decide
  rw [hnone]
  show parseIntChars ((jsSplit1 '_'
      (natToChars p ++ '_' :: 'i' :: (natToChars i ++ ['.', 'j', 'p', 'g']))).getD 0 []) = p
  rw [jsSplit1_first (natToChars p) _
    (fun hm => digit_ne (hP '_' hm) (by decide) rfl)]
  show parseIntChars (natToChars p) = p
  exact parseIntChars_natToChars p

theorem getIndex_mk (p i : Nat) : getIndex (mkImageName p i) = i := by
  have hP := natToChars_all_digit p
  have hI := natToChars_all_digit i
  have hdata : (mkImageName p i).data
      = (['i', 'm', 'a', 'g', 'e', '_', 'p'] ++ natToChars p) ++ '_' :: 'i'
          :: (natToChars i ++ ['.', 'j', 'p', 'g']) := by
    show ['i', 'm', 'a', 'g', 'e', '_', 'p'] ++ natToChars p
        ++ ['_', 'i'] ++ natToChars i ++ ['.', 'j', 'p', 'g'] = _
    simp
  rw [getIndex, hdata]
  have hpf : pairFree '_' 'i'
      ((['i', 'm', 'a', 'g', 'e', '_', 'p'] ++ natToChars p) ++ ['_']) = true := by
    have hshape : (['i', 'm', 'a', 'g', 'e', '_', 'p'] ++ natToChars p) ++ ['_']
        = ['i', 'm', 'a', 'g', 'e'] ++ '_' :: 'p' :: (natToChars p ++ ['_']) := by
      simp
    rw [hshape]
    refine pairFree_append_left _ _ (by decide) ?_
    refine pairFree_cons_snd (by decide) ?_
    have hshape2 : 'p' :: (natToChars p ++ ['_']) = ('p' :: natToChars p) ++ ['_'] := rfl
    rw [hshape2]
    refine pairFree_dropLast_ne _ ?_
    rw [List.dropLast_concat]
    intro c hc
    rcases List.mem_cons.1 hc with rfl | hc
    · decide
    · exact digit_ne (hP c hc) (by decide)
  rw [jsSplit2_first _ _ hpf]
  have hnone : jsSplit2 '_' 'i' (natToChars i ++ ['.', 'j', 'p', 'g'])
      = [natToChars i ++ ['.', 'j', 'p', 'g']] := by
    refine jsSplit2_none _ ?_
    refine pairFree_append_left _ _ (digit_ne_of_mem hI (by decide)) ?_
    decide
  rw [hnone]
  show parseIntChars ((jsSplit1 '.' (natToChars i ++ '.' :: ['j', 'p', 'g'])).getD 0 []) = i
  rw [jsSplit1_first (natToChars i) _
    (fun hm => digit_ne (hI '.' hm) (by decide) rfl)]
  show parseIntChars (natToChars i) = i
  exact parseIntChars_natToChars i

theorem insertImage_perm (x : ProcessedImage) (l : List ProcessedImage) :
    (insertImage x l).Perm (x :: l) := by
  induction l with
  | nil => exact List.Perm.refl _
  | cons y r ih =>
    rw [insertImage]
    by_cases h : imageLe x y = true
    · rw [if_pos h]
    · rw [if_neg h]
      exact (ih.cons y).trans (List.Perm.swap x y r)

theorem sortImages_perm (l : List ProcessedImage) : (sortImages l).Perm l := by
  induction l with
  | nil => exact List.Perm.refl _
  | cons x r ih =>
    rw [sortImages]
    exact (insertImage_perm x (sortImages r)).trans (ih.cons x)

theorem imageLe_total (a b : ProcessedImage) : imageLe a b = true ∨ imageLe b a = true := by
  rw [imageLe, imageLe]
  simp only [Bool.or_eq_true, Bool.and_eq_true, decide_eq_true_eq]
  omega

theorem imageLe_trans {a b c : ProcessedImage} (h1 : imageLe a b = true)
    (h2 : imageLe b c = true) : imageLe a c = true := by
  rw [imageLe] at h1 h2 ⊢
  simp only [Bool.or_eq_true, Bool.and_eq_true, decide_eq_true_eq] at h1 h2 ⊢
  omega

theorem imageLe_antisymm_key {a b : ProcessedImage} (h1 : imageLe a b = true)
    (h2 : imageLe b a = true) : imageKey a = imageKey b := by
  rw [imageLe] at h1 h2
  simp only [Bool.or_eq_true, Bool.and_eq_true, decide_eq_true_eq] at h1 h2
  have hpq : getPage a.name = getPage b.name ∧ getIndex a.name = getIndex b.name := by omega
  rw [imageKey, imageKey, hpq.1, hpq.2]

theorem insertImage_sorted (x : ProcessedImage) (l : List ProcessedImage)
    (hs : l.Pairwise (fun a b => imageLe a b = true)) :
    (insertImage x l).Pairwise (fun a b => imageLe a b = true) := by
  induction l with
  | nil => simp [insertImage]
  | cons y r ih =>
    rw [insertImage]
    rcases List.pairwise_cons.1 hs with ⟨hy, hr⟩
    by_cases h : imageLe x y = true
    · rw [if_pos h]
      refine List.pairwise_cons.2 ⟨?_, hs⟩
      intro z hz
      rcases List.mem_cons.1 hz with rfl | hz
      · exact h
      · exact imageLe_trans h (hy z hz)
    · rw [if_neg h]
      have hyx : imageLe y x = true := (imageLe_total x y).resolve_left h
      refine List.pairwise_cons.2 ⟨?_, ih hr⟩
      intro z hz
      rcases List.mem_cons.1 ((insertImage_perm x r).mem_iff.1 hz) with rfl | hz
      · exact hyx
      · exact hy z hz

theorem sortImages_sorted (l : List ProcessedImage) :
    (sortImages l).Pairwise (fun a b => imageLe a b = true) := by
  induction l with
  | nil => simp [sortImages]
  | cons x r ih =>
    rw [sortImages]
    exact insertImage_sorted x (sortImages r) ih

theorem sorted_nodupkey_eq : ∀ l1 l2 : List ProcessedImage, l1.Perm l2 →
    l1.Pairwise (fun a b => imageLe a b = true) →
    l2.Pairwise (fun a b => imageLe a b = true) →
    (l1.map imageKey).Nodup → l1 = l2 := by
  intro l1
  induction l1 with
  | nil =>
    intro l2 hp _ _ _
    exact (hp.symm.eq_nil).symm
  | cons a t1 ih =>
    intro l2 hp hs1 hs2 hnd
    cases l2 with
    | nil => simpa using hp.eq_nil
    | cons b t2 =>
      have hab : a = b := by
        by_contra hne
        have hbmem : b ∈ a :: t1 := hp.symm.subset (List.mem_cons_self b t2)
        have hamem : a ∈ b :: t2 := hp.subset (List.mem_cons_self a t1)
        have hb_t1 : b ∈ t1 := by
          rcases List.mem_cons.1 hbmem with h | h
          · exact absurd h.symm hne
          · exact h
        have ha_t2 : a ∈ t2 := by
          rcases List.mem_cons.1 hamem with h | h
          · exact absurd h hne
          · exact h
        have h1 : imageLe a b = true := (List.pairwise_cons.1 hs1).1 b hb_t1
        have h2 : imageLe b a = true := (List.pairwise_cons.1 hs2).1 a ha_t2
        have hkey := imageLe_antisymm_key h1 h2
        have hnd' : imageKey a ∉ t1.map imageKey := by
          rw [List.map_cons] at hnd
          exact (List.nodup_cons.1 hnd).1
        exact hnd' (hkey ▸ List.mem_map_of_mem imageKey hb_t1)
      subst hab
      have htail := ih t2 hp.cons_inv (List.pairwise_cons.1 hs1).2
        (List.pairwise_cons.1 hs2).2
        (by rw [List.map_cons] at hnd; exact (List.nodup_cons.1 hnd).2)
      rw [htail]

theorem processObjects_names (p : Nat) : ∀ objs : List ImgObject, ∀ idx : Nat, ∃ k,
    (processObjects p idx objs).map ProcessedImage.name
      = (List.range' idx k).map (mkImageName p) := by
  intro objs
  induction objs with
  | nil =>
    intro idx
    exact ⟨0, by simp [processObjects]⟩
  | cons obj rest ih =>
    intro idx
    rw [processObjects]
    by_cases hsmall : obj.width < 200 ∨ obj.height < 200
    · rw [if_pos hsmall]
      exact ih idx
    · rw [if_neg hsmall]
      by_cases hdraw : obj.drawOk = true
      · rw [if_pos hdraw]
        obtain ⟨k, hk⟩ := ih (idx + 1)
        refine ⟨k + 1, ?_⟩
        rw [List.map_cons, hk, List.range'_succ, List.map_cons]
      · rw [if_neg hdraw]
        exact ih idx

theorem processObjects_description (p : Nat) : ∀ objs : List ImgObject, ∀ idx : Nat,
    ∀ img ∈ processObjects p idx objs, img.description = none := by
  intro objs
  induction objs with
  | nil =>
    intro idx img him
    simp [processObjects] at him
  | cons obj rest ih =>
    intro idx img him
    rw [processObjects] at him
    by_cases hsmall : obj.width < 200 ∨ obj.height < 200
    · rw [if_pos hsmall] at him
      exact ih idx img him
    · rw [if_neg hsmall] at him
      by_cases hdraw : obj.drawOk = true
      · rw [if_pos hdraw] at him
        rcases List.mem_cons.1 him with rfl | him
        · rfl
        · exact ih (idx + 1) img him
      · rw [if_neg hdraw] at him
        exact ih idx img him

theorem processObjects_mem_name (p : Nat) (objs : List ImgObject) (idx : Nat) :
    ∀ img ∈ processObjects p idx objs, ∃ j, img.name = mkImageName p j := by
  intro img him
  obtain ⟨k, hk⟩ := processObjects_names p objs idx
  have : img.name ∈ (processObjects p idx objs).map ProcessedImage.name :=
    List.mem_map_of_mem _ him
  rw [hk] at this
  obtain ⟨j, _, hj⟩ := List.mem_map.1 this
  exact ⟨j, hj.symm⟩

theorem processPage_keys (doc : PdfDoc) (p : Nat) :
    ∃ k, (processPage doc p).map imageKey
      = (List.range' 1 k).map (fun j => (p, j)) := by
  rw [processPage]
  by_cases hp1 : p = 1
  · subst hp1
    rw [if_pos rfl]
    refine ⟨1, ?_⟩
    have hkey : imageKey (ProcessedImage.mk ("image_p1_i1.jpg") (doc.pages 1).wholeRender
        ("image/jpeg") (some ("Magazine Cover"))) = (1, 1) := by
      rw [imageKey]
      show (getPage ("image_p1_i1.jpg"), getIndex ("image_p1_i1.jpg")) = (1, 1)
      decide
    rw [List.map_cons, List.map_nil, hkey]
    decide
  · rw [if_neg hp1]
    obtain ⟨k, hk⟩ := processObjects_names p (doc.pages p).objects 1
    refine ⟨k, ?_⟩
    have hmm : (processObjects p 1 (doc.pages p).objects).map imageKey
        = ((processObjects p 1 (doc.pages p).objects).map ProcessedImage.name).map
            (fun nm => (getPage nm, getIndex nm)) := by
      rw [List.map_map]
      rfl
    rw [hmm, hk, List.map_map]
    refine List.map_congr_left ?_
    intro j _
    show (getPage (mkImageName p j), getIndex (mkImageName p j)) = (p, j)
    rw [getPage_mk, getIndex_mk]

theorem processPage_key_fst (doc : PdfDoc) (p : Nat) :
    ∀ img ∈ processPage doc p, (imageKey img).1 = p := by
  intro img him
  obtain ⟨k, hk⟩ := processPage_keys doc p
  have : imageKey img ∈ (processPage doc p).map imageKey := List.mem_map_of_mem _ him
  rw [hk] at this
  obtain ⟨j, _, hj⟩ := List.mem_map.1 this
  rw [← hj]

theorem preSortImages_keys_nodup (doc : PdfDoc) :
    ((preSortImages doc).map imageKey).Nodup := by
  rw [preSortImages, List.map_flatten, List.map_map]
  rw [List.nodup_flatten]
  constructor
  · intro l hl
    obtain ⟨p, _, hp⟩ := List.mem_map.1 hl
    obtain ⟨k, hk⟩ := processPage_keys doc p
    rw [← hp]
    show ((processPage doc p).map imageKey).Nodup
    rw [hk]
    refine List.Nodup.map ?_ (List.nodup_range' 1 k)
    intro x y hxy
    simpa using hxy
  · rw [List.pairwise_map]
    have hlt : (List.range' 1 doc.numPages).Pairwise (fun p q => p ≠ q) :=
      List.nodup_range' 1 doc.numPages
    refine hlt.imp ?_
    intro p q hpq
    intro x hxp hxq
    have hxp' : x.1 = p := by
      obtain ⟨img, him, rfl⟩ := List.mem_map.1 hxp
      exact processPage_key_fst doc p img him
    have hxq' : x.1 = q := by
      obtain ⟨img, him, rfl⟩ := List.mem_map.1 hxq
      exact processPage_key_fst doc q img him
    exact hpq (hxp' ▸ hxq')

/-- Claim C3: for every document and every completion order of the
concurrent page-processing tasks (modelled as a permutation of the
canonically ordered push list), `extractAndProcessImages` returns the
same list, sorted by (page ascending, index ascending) with page and
index parsed from the `image_p<page>_i<index>.jpg` convention — the
result is deterministic and independent of task interleaving. -/
theorem extractAndProcessImages_sorted_deterministic (doc : PdfDoc)
    (l : List ProcessedImage) (h : l.Perm (preSortImages doc)) :
    sortImages l = (extractAndProcessImages doc).images
      ∧ (sortImages l).Pairwise (fun a b =>
          getPage a.name < getPage b.name
            ∨ (getPage a.name = getPage b.name ∧ getIndex a.name < getIndex b.name)) := by
  have hnodup_l : (l.map imageKey).Nodup :=
    ((h.map imageKey).nodup_iff).2 (preSortImages_keys_nodup doc)
  have hnodup_sl : ((sortImages l).map imageKey).Nodup :=
    (((sortImages_perm l).map imageKey).nodup_iff).2 hnodup_l
  have hperm : (sortImages l).Perm (sortImages (preSortImages doc)) :=
    (sortImages_perm l).trans (h.trans (sortImages_perm _).symm)
  have heq := sorted_nodupkey_eq (sortImages l) (sortImages (preSortImages doc)) hperm
    (sortImages_sorted l) (sortImages_sorted _) hnodup_sl
  refine ⟨heq, ?_⟩
  have hne : (sortImages l).Pairwise (fun a b => imageKey a ≠ imageKey b) :=
    List.pairwise_map.1 hnodup_sl
  refine ((sortImages_sorted l).and hne).imp ?_
  intro a b hab
  obtain ⟨hle, hkne⟩ := hab
  rw [imageLe] at hle
  simp only [Bool.or_eq_true, Bool.and_eq_true, decide_eq_true_eq] at hle
  rw [imageKey, imageKey, Ne, Prod.mk.injEq, not_and_or] at hkne
  omega

theorem extractAndProcessImages_sorted_deterministic_witness :
    sortImages exPermImages = (extractAndProcessImages exDocImgs).images :=
  (extractAndProcessImages_sorted_deterministic exDocImgs exPermImages (by decide)).1

/-- Claim C7: for every document (with its at-least-one page), page 1
contributes exactly one image to the extraction result, named
`image_p1_i1.jpg` and produced by rendering the whole page (its data is
the page-1 whole-page render), regardless of the page's raster objects. -/
theorem extractAndProcessImages_page1 (doc : PdfDoc) (h : 1 ≤ doc.numPages) :
    (extractAndProcessImages doc).images.filter
        (fun img => img.name == "image_p1_i1.jpg")
      = [ProcessedImage.mk ("image_p1_i1.jpg") (doc.pages 1).wholeRender ("image/jpeg")
          (some ("Magazine Cover"))] := by
  have hperm := (sortImages_perm (preSortImages doc)).filter
      (fun img => img.name == "image_p1_i1.jpg")
  obtain ⟨m, hm⟩ : ∃ m, doc.numPages = m + 1 := ⟨doc.numPages - 1, by omega⟩
  have hsplit : preSortImages doc
      = processPage doc 1 ++ ((List.range' 2 m).map (processPage doc)).flatten := by
    rw [preSortImages, hm, List.range'_succ]
    simp
  have hfilter_pre : (preSortImages doc).filter (fun img => img.name == "image_p1_i1.jpg")
      = [ProcessedImage.mk ("image_p1_i1.jpg") (doc.pages 1).wholeRender ("image/jpeg")
          (some ("Magazine Cover"))] := by
    rw [hsplit, List.filter_append]
    have h1 : (processPage doc 1).filter (fun img => img.name == "image_p1_i1.jpg")
        = [ProcessedImage.mk ("image_p1_i1.jpg") (doc.pages 1).wholeRender ("image/jpeg")
            (some ("Magazine Cover"))] := by
      rw [processPage, if_pos rfl]
      simp
    have h2 : (((List.range' 2 m).map (processPage doc)).flatten).filter
        (fun img => img.name == "image_p1_i1.jpg") = [] := by
      rw [List.filter_eq_nil_iff]
      intro img him
      obtain ⟨lp, hlp, himg⟩ := List.mem_flatten.1 him
      obtain ⟨p, hp, rfl⟩ := List.mem_map.1 hlp
      have hp2 : 2 ≤ p := by
        rcases List.mem_range'.1 hp with ⟨i, _, rfl⟩
        omega
      rw [processPage, if_neg (by omega)] at himg
      obtain ⟨j, hj⟩ := processObjects_mem_name p _ 1 img himg
      simp only [beq_iff_eq]
      intro hname
      have hgp : getPage img.name = p := by rw [hj, getPage_mk]
      rw [hname] at hgp
      have h1' : getPage ("image_p1_i1.jpg") = 1 := by decide
      omega
    rw [h1, h2, List.append_nil]
  rw [show (extractAndProcessImages doc).images = sortImages (preSortImages doc) from rfl]
  rw [hfilter_pre] at hperm
  exact List.perm_singleton.1 hperm

theorem extractAndProcessImages_page1_witness :
    (extractAndProcessImages exDocImgs).images.filter
        (fun img => img.name == "image_p1_i1.jpg")
      = [ProcessedImage.mk ("image_p1_i1.jpg") (exDocImgs.pages 1).wholeRender ("image/jpeg")
          (some ("Magazine Cover"))] :=
  extractAndProcessImages_page1 exDocImgs (by decide)

theorem setDescription_proj (l : List ProcessedImage) (nm d : String) :
    (setDescription l nm d).map (fun img => (img.name, img.data, img.mimeType))
      = l.map (fun img => (img.name, img.data, img.mimeType)) := by
  induction l with
  | nil => rfl
  | cons img rest ih =>
    rw [setDescription]
    by_cases h : (img.name == nm) = true
    · rw [if_pos h]
      simp only [List.map_cons]
    · rw [if_neg h]
      simp only [List.map_cons, ih]

theorem setDescription_mem (l : List ProcessedImage) (nm d : String) :
    ∀ x ∈ setDescription l nm d, ∃ y ∈ l,
      x.name = y.name ∧ x.data = y.data ∧ x.mimeType = y.mimeType
        ∧ (x.description = y.description ∨ (y.name = nm ∧ x.description = some d)) := by
  induction l with
  | nil =>
    intro x hx
    simp [setDescription] at hx
  | cons img rest ih =>
    intro x hx
    rw [setDescription] at hx
    by_cases h : (img.name == nm) = true
    · rw [if_pos h] at hx
      rcases List.mem_cons.1 hx with rfl | hx
      · exact ⟨img, List.mem_cons_self _ _, rfl, rfl, rfl, Or.inr ⟨by simpa using h, rfl⟩⟩
      · exact ⟨x, List.mem_cons_of_mem _ hx, rfl, rfl, rfl, Or.inl rfl⟩
    · rw [if_neg h] at hx
      rcases List.mem_cons.1 hx with rfl | hx
      · exact ⟨x, List.mem_cons_self _ _, rfl, rfl, rfl, Or.inl rfl⟩
      · obtain ⟨y, hy, h1, h2, h3, h4⟩ := ih x hx
        exact ⟨y, List.mem_cons_of_mem _ hy, h1, h2, h3, h4⟩

theorem applyEntries_proj (es : List (String × String)) : ∀ acc : List ProcessedImage,
    (applyEntries acc es).map (fun img => (img.name, img.data, img.mimeType))
      = acc.map (fun img => (img.name, img.data, img.mimeType)) := by
  induction es with
  | nil => intro acc; rfl
  | cons e rest ih =>
    intro acc
    show (applyEntries (setDescription acc e.1 e.2) rest).map _ = _
    rw [ih, setDescription_proj]

theorem applyEntries_mem (es : List (String × String)) : ∀ acc : List ProcessedImage,
    ∀ x ∈ applyEntries acc es, ∃ y ∈ acc,
      x.name = y.name ∧ x.data = y.data ∧ x.mimeType = y.mimeType
        ∧ (x.description = y.description
            ∨ ∃ d, (y.name, d) ∈ es ∧ x.description = some d) := by
  induction es with
  | nil =>
    intro acc x hx
    exact ⟨x, hx, rfl, rfl, rfl, Or.inl rfl⟩
  | cons e rest ih =>
    intro acc x hx
    have hx' : x ∈ applyEntries (setDescription acc e.1 e.2) rest := hx
    obtain ⟨y, hy, h1, h2, h3, h4⟩ := ih _ x hx'
    obtain ⟨z, hz, g1, g2, g3, g4⟩ := setDescription_mem acc e.1 e.2 y hy
    refine ⟨z, hz, h1.trans g1, h2.trans g2, h3.trans g3, ?_⟩
    rcases h4 with h4 | ⟨d, hd, hxd⟩
    · rcases g4 with g4 | ⟨gn, gd⟩
      · exact Or.inl (h4.trans g4)
      · refine Or.inr ⟨e.2, ?_, h4.trans gd⟩
        rw [gn]
        simp
    · refine Or.inr ⟨d, ?_, hxd⟩
      exact List.mem_cons_of_mem e (g1 ▸ hd)

theorem captionLoopAux_proj (responses : CaptionResponses) : ∀ fuel : Nat,
    ∀ (acc : List ProcessedImage) (b : Nat) (rest : List ProcessedImage),
    (captionLoopAux responses fuel acc b rest).map
        (fun img => (img.name, img.data, img.mimeType))
      = acc.map (fun img => (img.name, img.data, img.mimeType)) := by
  intro fuel
  induction fuel with
  | zero => intro acc b rest; rfl
  | succ fuel ih =>
    intro acc b rest
    rw [captionLoopAux]
    by_cases hr : rest.isEmpty
    · rw [if_pos hr]
    · rw [if_neg hr]
      cases hresp : responses b with
      | ok o =>
        cases o with
        | some es =>
          simp only [hresp]
          rw [ih, applyEntries_proj]
        | none =>
          simp only [hresp]
          exact ih acc (b + 1) (rest.drop 8)
      | error e =>
        simp only [hresp]
        exact ih acc (b + 1) (rest.drop 8)

theorem captionLoopAux_mem (responses : CaptionResponses) : ∀ fuel : Nat,
    ∀ (acc : List ProcessedImage) (b : Nat) (rest : List ProcessedImage),
    ∀ x ∈ captionLoopAux responses fuel acc b rest, ∃ y ∈ acc,
      x.name = y.name ∧ x.data = y.data ∧ x.mimeType = y.mimeType
        ∧ (x.description = y.description
            ∨ ∃ bb es d, responses bb = Except.ok (some es)
                ∧ (y.name, d) ∈ es ∧ x.description = some d) := by
  intro fuel
  induction fuel with
  | zero =>
    intro acc b rest x hx
    exact ⟨x, hx, rfl, rfl, rfl, Or.inl rfl⟩
  | succ fuel ih =>
    intro acc b rest x hx
    rw [captionLoopAux] at hx
    by_cases hr : rest.isEmpty
    · rw [if_pos hr] at hx
      exact ⟨x, hx, rfl, rfl, rfl, Or.inl rfl⟩
    · rw [if_neg hr] at hx
      cases hresp : responses b with
      | ok o =>
        cases o with
        | some es =>
          simp only [hresp] at hx
          obtain ⟨y, hy, h1, h2, h3, h4⟩ := ih _ (b + 1) (rest.drop 8) x hx
          obtain ⟨z, hz, g1, g2, g3, g4⟩ := applyEntries_mem es acc y hy
          refine ⟨z, hz, h1.trans g1, h2.trans g2, h3.trans g3, ?_⟩
          rcases h4 with h4 | ⟨bb, es', d, hresp', hd, hxd⟩
          · rcases g4 with g4 | ⟨d, hd, gd⟩
            · exact Or.inl (h4.trans g4)
            · exact Or.inr ⟨b, es, d, hresp, hd, h4.trans gd⟩
          · exact Or.inr ⟨bb, es', d, hresp', g1 ▸ hd, hxd⟩
        | none =>
          simp only [hresp] at hx
          exact ih _ (b + 1) (rest.drop 8) x hx
      | error e =>
        simp only [hresp] at hx
        exact ih _ (b + 1) (rest.drop 8) x hx

theorem captionLoopAux_error (responses : CaptionResponses)
    (herr : ∀ b, responses b = Except.error ()) : ∀ fuel : Nat,
    ∀ (acc : List ProcessedImage) (b : Nat) (rest : List ProcessedImage),
    captionLoopAux responses fuel acc b rest = acc := by
  intro fuel
  induction fuel with
  | zero => intro acc b rest; rfl
  | succ fuel ih =>
    intro acc b rest
    rw [captionLoopAux]
    by_cases hr : rest.isEmpty
    · rw [if_pos hr]
    · rw [if_neg hr]
      simp only [herr b]
      exact ih acc (b + 1) (rest.drop 8)

/-- Claim C9: for every image list and every pattern of per-batch
captioning outcomes (call failure after retries, malformed/non-JSON
response, non-array JSON, or a parsed entry array), `generateImageCaptions`
returns a result covering the full image list — same length, names, data
and mime types in order; any changed description traces to an entry of a
successfully parsed batch response; and if every batch fails the list is
returned unchanged.  The failure never propagates out of the stage. -/
theorem generateImageCaptions_spec (images : List ProcessedImage)
    (responses : CaptionResponses) :
    (generateImageCaptions images responses).map
        (fun img => (img.name, img.data, img.mimeType))
      = images.map (fun img => (img.name, img.data, img.mimeType))
      ∧ (∀ x ∈ generateImageCaptions images responses, ∃ y ∈ images,
          x.name = y.name ∧ x.data = y.data ∧ x.mimeType = y.mimeType
            ∧ (x.description = y.description
                ∨ ∃ b es d, responses b = Except.ok (some es)
                    ∧ (y.name, d) ∈ es ∧ x.description = some d))
      ∧ ((∀ b, responses b = Except.error ()) →
          generateImageCaptions images responses = images) := by
  refine ⟨captionLoopAux_proj responses _ images 0 _,
    captionLoopAux_mem responses _ images 0 _,
    fun herr => captionLoopAux_error responses herr _ images 0 _⟩

theorem generateImageCaptions_spec_witness :
    generateImageCaptions exPermImages exRespErr = exPermImages :=
  (generateImageCaptions_spec exPermImages exRespErr).2.2 (fun _ => rfl)

theorem preSortImages_descriptions (doc : PdfDoc) : ∀ img ∈ preSortImages doc,
    (img.name = "image_p1_i1.jpg" → img.description = some ("Magazine Cover"))
      ∧ (img.name ≠ "image_p1_i1.jpg" → img.description = none) := by
  intro img him
  rw [preSortImages] at him
  obtain ⟨lp, hlp, himg⟩ := List.mem_flatten.1 him
  obtain ⟨p, hp, rfl⟩ := List.mem_map.1 hlp
  rw [processPage] at himg
  by_cases hp1 : p = 1
  · rw [if_pos hp1] at himg
    rcases List.mem_singleton.1 himg with rfl
    exact ⟨fun _ => rfl, fun hne => absurd rfl hne⟩
  · rw [if_neg hp1] at himg
    have hdesc := processObjects_description p _ 1 img himg
    obtain ⟨j, hj⟩ := processObjects_mem_name p _ 1 img himg
    refine ⟨?_, fun _ => hdesc⟩
    intro hname
    exfalso
    have hgp : getPage img.name = p := by rw [hj, getPage_mk]
    rw [hname] at hgp
    have h1' : getPage ("image_p1_i1.jpg") = 1 := by decide
    exact hp1 (by omega)

theorem extractAndProcessImages_descriptions (doc : PdfDoc) :
    ∀ img ∈ (extractAndProcessImages doc).images,
    (img.name = "image_p1_i1.jpg" → img.description = some ("Magazine Cover"))
      ∧ (img.name ≠ "image_p1_i1.jpg" → img.description = none) := by
  intro img him
  have him' : img ∈ preSortImages doc :=
    (sortImages_perm (preSortImages doc)).mem_iff.1 him
  exact preSortImages_descriptions doc img him'

/-- Claim C10: the cover image leaves extraction with its description
already set to `Magazine Cover` while every other extracted image leaves
extraction undescribed; the captioner never sends the cover (it is
excluded from the batched content images); and under responses that only
name images actually sent, the extractor-assigned description is the
cover's final description after captioning. -/
theorem cover_description_spec (doc : PdfDoc) (images : List ProcessedImage)
    (responses : CaptionResponses)
    (hconf : ∀ b es, responses b = Except.ok (some es) →
        ∀ e ∈ es, e.1 ≠ ("image_p1_i1.jpg" : String)) :
    (∀ img ∈ (extractAndProcessImages doc).images,
        (img.name = "image_p1_i1.jpg" → img.description = some ("Magazine Cover"))
          ∧ (img.name ≠ "image_p1_i1.jpg" → img.description = none))
      ∧ (∀ img ∈ contentImagesOf images, img.name ≠ ("image_p1_i1.jpg" : String))
      ∧ (∀ x ∈ generateImageCaptions (extractAndProcessImages doc).images responses,
          x.name = "image_p1_i1.jpg" → x.description = some ("Magazine Cover")) := by
  refine ⟨extractAndProcessImages_descriptions doc, ?_, ?_⟩
  · intro img him
    rw [contentImagesOf, List.mem_filter] at him
    simpa using him.2
  · intro x hx hxname
    obtain ⟨y, hy, h1, _, _, h4⟩ :=
      captionLoopAux_mem responses _ (extractAndProcessImages doc).images 0 _ x hx
    have hyname : y.name = "image_p1_i1.jpg" := h1 ▸ hxname
    rcases h4 with h4 | ⟨bb, es, d, hresp, hd, _⟩
    · rw [h4]
      exact (extractAndProcessImages_descriptions doc y hy).1 hyname
    · exact absurd (hyname ▸ rfl : y.name = y.name) (by
        have := hconf bb es hresp (y.name, d) hd
        exact fun _ => this hyname)

theorem cover_description_spec_witness :
    (ProcessedImage.mk ("image_p1_i1.jpg") ((exDocImgs.pages 1).wholeRender)
        ("image/jpeg") (some ("Magazine Cover"))).description
      = some ("Magazine Cover") :=
  (cover_description_spec exDocImgs [] exRespOk
      (by
        intro b es h e he
        simp only [exRespOk, Except.ok.injEq, Option.some.injEq] at h
        subst h
        fin_cases he
        decide)).2.2
    (ProcessedImage.mk ("image_p1_i1.jpg") ((exDocImgs.pages 1).wholeRender)
      ("image/jpeg") (some ("Magazine Cover")))
    (by decide) rfl

theorem oebps_images_path_ne (s : String) :
    (("OEBPS/images/" : String) ++ s) ≠ ("OEBPS/cover.xhtml" : String) := by
  intro h
  have hd := congrArg String.data h
  rw [String.data_append] at hd
  simp at hd


theorem generateEpub_manifest_eq (uid ts title md : String) (images : List ProcessedImage) :
    (generateEpub uid ts title md images).manifest
      = manifestOf (images.any (fun img => img.name == "image_p1_i1.jpg")) images := rfl

theorem generateEpub_spine_eq (uid ts title md : String) (images : List ProcessedImage) :
    (generateEpub uid ts title md images).spine
      = spineOf (images.any (fun img => img.name == "image_p1_i1.jpg")) := rfl

theorem generateEpub_coverMeta_eq (uid ts title md : String) (images : List ProcessedImage) :
    (generateEpub uid ts title md images).coverMeta
      = images.any (fun img => img.name == "image_p1_i1.jpg") := rfl

theorem generateEpub_toc_eq (uid ts title md : String) (images : List ProcessedImage) :
    (generateEpub uid ts title md images).toc = (markedParse md).2 := rfl

theorem generateEpub_contentXhtml_eq (uid ts title md : String)
    (images : List ProcessedImage) :
    (generateEpub uid ts title md images).contentXhtml
      = contentXhtmlOf (escapeXml title) (markedParse md).1 := rfl

theorem manifestOf_true (images : List ProcessedImage) :
    manifestOf true images
      = ManifestItem.mk ("cover") ("cover.xhtml") ("application/xhtml+xml") none
          :: ManifestItem.mk ("nav") ("nav.xhtml") ("application/xhtml+xml") (some ("nav"))
          :: ManifestItem.mk ("ncx") ("toc.ncx") ("application/x-dtbncx+xml") none
          :: ManifestItem.mk ("styles") ("styles.css") ("text/css") none
          :: ManifestItem.mk ("content") ("content.xhtml") ("application/xhtml+xml") none
          :: images.map imageManifestItem := rfl

theorem manifestOf_false (images : List ProcessedImage) :
    manifestOf false images
      = ManifestItem.mk ("nav") ("nav.xhtml") ("application/xhtml+xml") (some ("nav"))
          :: ManifestItem.mk ("ncx") ("toc.ncx") ("application/x-dtbncx+xml") none
          :: ManifestItem.mk ("styles") ("styles.css") ("text/css") none
          :: ManifestItem.mk ("content") ("content.xhtml") ("application/xhtml+xml") none
          :: images.map imageManifestItem := rfl

theorem generateEpub_files_fst (uid ts title md : String) (images : List ProcessedImage) :
    (generateEpub uid ts title md images).files.map Prod.fst
      = [("mimetype" : String), ("META-INF/container.xml" : String),
         ("OEBPS/styles.css" : String), ("OEBPS/nav.xhtml" : String),
         ("OEBPS/toc.ncx" : String)]
        ++ (if images.any (fun img => img.name == "image_p1_i1.jpg") then
              [("OEBPS/cover.xhtml" : String)] else [])
        ++ [("OEBPS/content.xhtml" : String)]
        ++ images.map (fun img => ("OEBPS/images/" : String) ++ img.name)
        ++ [("OEBPS/content.opf" : String)] := by
  cases hc : images.any (fun img => img.name == "image_p1_i1.jpg") with
  | false =>
    show (List.map Prod.fst
        ([_, _, _, _, _]
          ++ (if images.any (fun img => img.name == "image_p1_i1.jpg") then _ else [])
          ++ [_] ++ images.map _ ++ [_])) = _
    rw [hc]
    simp [List.map_append, List.map_map]
  | true =>
    show (List.map Prod.fst
        ([_, _, _, _, _]
          ++ (if images.any (fun img => img.name == "image_p1_i1.jpg") then _ else [])
          ++ [_] ++ images.map _ ++ [_])) = _
    rw [hc]
    simp [List.map_append, List.map_map]

/-- Claim C5: an image named `image_p1_i1.jpg` in the supplied list causes
`generateEpub` to write a dedicated `cover.xhtml` document, declare cover
metadata in the package descriptor (a manifest item carrying the
`cover-image` property and a cover `<meta>` tag), and put the cover
document first in the spine; without such an image all of these are
omitted. -/
theorem generateEpub_cover_spec (uid ts title md : String) (images : List ProcessedImage) :
    (images.any (fun img => img.name == "image_p1_i1.jpg") = true →
        ("OEBPS/cover.xhtml" : String)
            ∈ (generateEpub uid ts title md images).files.map Prod.fst
          ∧ (generateEpub uid ts title md images).coverMeta = true
          ∧ (∃ it ∈ (generateEpub uid ts title md images).manifest,
              it.id = ("cover-image" : String) ∧ it.properties = some ("cover-image"))
          ∧ (∃ it ∈ (generateEpub uid ts title md images).manifest,
              it.id = ("cover" : String) ∧ it.href = ("cover.xhtml" : String))
          ∧ (generateEpub uid ts title md images).spine
              = [("cover" : String), ("nav" : String), ("content" : String)])
      ∧ (images.any (fun img => img.name == "image_p1_i1.jpg") = false →
          ("OEBPS/cover.xhtml" : String)
              ∉ (generateEpub uid ts title md images).files.map Prod.fst
            ∧ (generateEpub uid ts title md images).coverMeta = false
            ∧ (∀ it ∈ (generateEpub uid ts title md images).manifest,
                it.properties ≠ some ("cover-image"))
            ∧ (generateEpub uid ts title md images).spine
                = [("nav" : String), ("content" : String)]) := by
  constructor
  · intro h
    obtain ⟨img0, himg0, hname0⟩ := List.any_eq_true.1 h
    refine ⟨?_, ?_, ?_, ?_, ?_⟩
    · rw [generateEpub_files_fst, h]
      simp
    · rw [generateEpub_coverMeta_eq, h]
    · rw [generateEpub_manifest_eq, h, manifestOf_true]
      refine ⟨imageManifestItem img0, ?_, ?_⟩
      · simp only [List.mem_cons]
        refine Or.inr (Or.inr (Or.inr (Or.inr (Or.inr ?_))))
        exact List.mem_map_of_mem _ himg0
      · rw [imageManifestItem, if_pos hname0]
        exact ⟨rfl, rfl⟩
    · rw [generateEpub_manifest_eq, h, manifestOf_true]
      exact ⟨ManifestItem.mk ("cover") ("cover.xhtml") ("application/xhtml+xml") none,
        List.mem_cons_self _ _, rfl, rfl⟩
    · rw [generateEpub_spine_eq, h]
      rfl
  · intro h
    refine ⟨?_, ?_, ?_, ?_⟩
    · rw [generateEpub_files_fst, h]
      intro hmem
      simp only [Bool.false_eq_true, if_false, List.append_nil, List.nil_append,
        List.mem_append, List.mem_cons, List.mem_singleton, List.not_mem_nil, or_false,
        List.mem_map] at hmem
      simp only [show ("OEBPS/cover.xhtml" : String) ≠ "mimetype" by decide,
        show ("OEBPS/cover.xhtml" : String) ≠ "META-INF/container.xml" by decide,
        show ("OEBPS/cover.xhtml" : String) ≠ "OEBPS/styles.css" by decide,
        show ("OEBPS/cover.xhtml" : String) ≠ "OEBPS/nav.xhtml" by decide,
        show ("OEBPS/cover.xhtml" : String) ≠ "OEBPS/toc.ncx" by decide,
        show ("OEBPS/cover.xhtml" : String) ≠ "OEBPS/content.xhtml" by decide,
        show ("OEBPS/cover.xhtml" : String) ≠ "OEBPS/content.opf" by decide, ne_eq,
        false_or, or_false] at hmem
      obtain ⟨img, _, himg⟩ := hmem
      exact oebps_images_path_ne img.name himg
    · rw [generateEpub_coverMeta_eq, h]
    · rw [generateEpub_manifest_eq, h, manifestOf_false]
      have hall := List.any_eq_false.1 h
      intro it hit
      rcases List.mem_cons.1 hit with rfl | hit
      · simp
      rcases List.mem_cons.1 hit with rfl | hit
      · simp
      rcases List.mem_cons.1 hit with rfl | hit
      · simp
      rcases List.mem_cons.1 hit with rfl | hit
      · simp
      obtain ⟨img, himg, rfl⟩ := List.mem_map.1 hit
      rw [imageManifestItem, if_neg (hall img himg)]
      simp
    · rw [generateEpub_spine_eq, h]
      rfl

theorem generateEpub_cover_spec_witness :
    (generateEpub ("u") ("t") ("T") ("") exPermImages).spine
      = [("cover" : String), ("nav" : String), ("content" : String)] :=
  ((generateEpub_cover_spec ("u") ("t") ("T") ("") exPermImages).1 (by decide)).2.2.2.2

/-- Claim C6: the archive is structurally complete: every entry of the
package manifest corresponds to a file actually written at the referenced
path (hrefs resolve relative to `OEBPS/`), and every spine idref names a
manifest item id that exists. -/
theorem generateEpub_manifest_complete (uid ts title md : String)
    (images : List ProcessedImage) (hnodup : (images.map ProcessedImage.name).Nodup) :
    (∀ it ∈ (generateEpub uid ts title md images).manifest,
        (("OEBPS/" : String) ++ it.href)
          ∈ (generateEpub uid ts title md images).files.map Prod.fst)
      ∧ (∀ idref ∈ (generateEpub uid ts title md images).spine,
          ∃ it ∈ (generateEpub uid ts title md images).manifest, it.id = idref) := by
  have himgcase : ∀ hc : Bool, ∀ img ∈ images,
      (("OEBPS/" : String) ++ (imageManifestItem img).href)
        ∈ [("mimetype" : String), ("META-INF/container.xml" : String),
            ("OEBPS/styles.css" : String), ("OEBPS/nav.xhtml" : String),
            ("OEBPS/toc.ncx" : String)]
          ++ (if images.any (fun img => img.name == "image_p1_i1.jpg") then
                [("OEBPS/cover.xhtml" : String)] else [])
          ++ [("OEBPS/content.xhtml" : String)]
          ++ images.map (fun img => ("OEBPS/images/" : String) ++ img.name)
          ++ [("OEBPS/content.opf" : String)] := by
    intro hc img himg
    have hhref : (imageManifestItem img).href = ("images/" : String) ++ img.name := by
      rw [imageManifestItem]
      by_cases hcn : (img.name == ("image_p1_i1.jpg" : String)) = true
      · rw [if_pos hcn]
      · rw [if_neg hcn]
    rw [hhref]
    have hassoc : ("OEBPS/" : String) ++ (("images/" : String) ++ img.name)
        = ("OEBPS/images/" : String) ++ img.name := by
      rw [← String.append_assoc]
      rw [show ("OEBPS/" : String) ++ ("images/" : String) = ("OEBPS/images/" : String)
        from rfl]
    rw [hassoc]
    simp only [List.mem_append, List.mem_map]
    refine Or.inl (Or.inr ?_)
    exact ⟨img, himg, rfl⟩
  constructor
  · intro it hit
    rw [generateEpub_manifest_eq] at hit
    rw [generateEpub_files_fst]
    cases hc : images.any (fun img => img.name == "image_p1_i1.jpg") with
    | true =>
      rw [hc, manifestOf_true] at hit
      rcases List.mem_cons.1 hit with rfl | hit
      · simp
      rcases List.mem_cons.1 hit with rfl | hit
      · simp
      rcases List.mem_cons.1 hit with rfl | hit
      · simp
      rcases List.mem_cons.1 hit with rfl | hit
      · simp
      rcases List.mem_cons.1 hit with rfl | hit
      · simp
      obtain ⟨img, himg, rfl⟩ := List.mem_map.1 hit
      have := himgcase true img himg
      rw [hc] at this
      exact this
    | false =>
      rw [hc, manifestOf_false] at hit
      rcases List.mem_cons.1 hit with rfl | hit
      · simp
      rcases List.mem_cons.1 hit with rfl | hit
      · simp
      rcases List.mem_cons.1 hit with rfl | hit
      · simp
      rcases List.mem_cons.1 hit with rfl | hit
      · simp
      obtain ⟨img, himg, rfl⟩ := List.mem_map.1 hit
      have := himgcase false img himg
      rw [hc] at this
      exact this
  · intro idref hid
    rw [generateEpub_spine_eq] at hid
    rw [generateEpub_manifest_eq]
    cases hc : images.any (fun img => img.name == "image_p1_i1.jpg") with
    | true =>
      rw [hc] at hid
      rw [show spineOf true
          = [("cover" : String), ("nav" : String), ("content" : String)] from rfl] at hid
      rw [manifestOf_true]
      rcases List.mem_cons.1 hid with rfl | hid
      · exact ⟨ManifestItem.mk ("cover") ("cover.xhtml") ("application/xhtml+xml") none,
          List.mem_cons_self _ _, rfl⟩
      rcases List.mem_cons.1 hid with rfl | hid
      · refine ⟨ManifestItem.mk ("nav") ("nav.xhtml") ("application/xhtml+xml")
          (some ("nav")), ?_, rfl⟩
        simp
      rcases List.mem_cons.1 hid with rfl | hid
      · refine ⟨ManifestItem.mk ("content") ("content.xhtml") ("application/xhtml+xml")
          none, ?_, rfl⟩
        simp
      simp at hid
    | false =>
      rw [hc] at hid
      rw [show spineOf false = [("nav" : String), ("content" : String)] from rfl] at hid
      rw [manifestOf_false]
      rcases List.mem_cons.1 hid with rfl | hid
      · exact ⟨ManifestItem.mk ("nav") ("nav.xhtml") ("application/xhtml+xml")
          (some ("nav")), List.mem_cons_self _ _, rfl⟩
      rcases List.mem_cons.1 hid with rfl | hid
      · refine ⟨ManifestItem.mk ("content") ("content.xhtml") ("application/xhtml+xml")
          none, ?_, rfl⟩
        simp
      simp at hid

theorem generateEpub_manifest_complete_witness :
    (("OEBPS/" : String) ++ ("nav.xhtml" : String))
      ∈ (generateEpub ("u") ("t") ("T") ("") exPermImages).files.map Prod.fst :=
  (generateEpub_manifest_complete ("u") ("t") ("T") ("") exPermImages (by decide)).1
    (ManifestItem.mk ("nav") ("nav.xhtml") ("application/xhtml+xml") (some ("nav")))
    (by decide)

theorem isPrefixOf_append_self : ∀ p y : List Char, p.isPrefixOf (p ++ y) = true := by
  intro p y
  induction p with
  | nil => simp [List.isPrefixOf]
  | cons c r ih =>
    show (c == c && r.isPrefixOf (r ++ y)) = true
    rw [ih]
    simp

theorem occurs_containsSub {p : List Char} : ∀ {s : List Char},
    Occurs p s → containsSub p s = true := by
  intro s hocc
  obtain ⟨x, y, rfl⟩ := hocc
  induction x with
  | nil =>
    rw [List.nil_append]
    cases p with
    | nil =>
      cases y with
      | nil => rfl
      | cons c r =>
        show ([].isPrefixOf (c :: r) || containsSub [] r) = true
        simp [List.isPrefixOf]
    | cons c r =>
      show ((c :: r).isPrefixOf ((c :: r) ++ y) || containsSub (c :: r) (r ++ y)) = true
      rw [isPrefixOf_append_self]
      simp
  | cons c x' ih =>
    rw [List.cons_append, containsSub, ih]
    simp

theorem occurs_append_left {p s : List Char} (t : List Char) (h : Occurs p s) :
    Occurs p (t ++ s) := by
  obtain ⟨x, y, rfl⟩ := h
  exact ⟨t ++ x, y, by rw [List.append_assoc]⟩

theorem occurs_append_right {p s : List Char} (t : List Char) (h : Occurs p s) :
    Occurs p (s ++ t) := by
  obtain ⟨x, y, rfl⟩ := h
  exact ⟨x, y ++ t, by simp⟩

theorem renderBlocksLoop_toc : ∀ (blocks : List MBlock) (count : Nat),
    (renderBlocksLoop blocks count).2
      = (((headingsOf blocks).enumFrom count).filter (fun p => p.2.1 ≤ 2)).map
          (fun p => TocItem.mk ⟨['s', 'e', 'c', 't', 'i', 'o', 'n', '-'] ++ natToChars p.1⟩
            ⟨stripTags (renderText p.2.2.data)⟩ p.2.1) := by
  intro blocks
  induction blocks with
  | nil => intro count; rfl
  | cons blk rest ih =>
    intro count
    cases blk with
    | heading d t =>
      show (if d ≤ 2 then
          [TocItem.mk ⟨['s', 'e', 'c', 't', 'i', 'o', 'n', '-'] ++ natToChars count⟩
            ⟨stripTags (renderText t.data)⟩ d] else [])
          ++ (renderBlocksLoop rest (count + 1)).2 = _
      rw [show headingsOf (MBlock.heading d t :: rest) = (d, t) :: headingsOf rest from rfl]
      rw [List.enumFrom_cons, List.filter_cons]
      by_cases hd : d ≤ 2
      · rw [if_pos hd, if_pos (by simpa using hd), List.map_cons, ih (count + 1)]
        rfl
      · rw [if_neg hd, if_neg (by simpa using hd), ih (count + 1)]
        rfl
    | paragraph t =>
      show (renderBlocksLoop rest count).2 = _
      rw [show headingsOf (MBlock.paragraph t :: rest) = headingsOf rest from rfl]
      exact ih count

theorem renderBlocksLoop_anchor : ∀ (blocks : List MBlock) (count : Nat),
    ∀ e ∈ (renderBlocksLoop blocks count).2,
    Occurs (['i', 'd', '=', '"'] ++ e.id.data ++ ['"']) (renderBlocksLoop blocks count).1 := by
  intro blocks
  induction blocks with
  | nil =>
    intro count e he
    simp [renderBlocksLoop] at he
  | cons blk rest ih =>
    intro count e he
    cases blk with
    | heading d t =>
      have hsplit : renderBlocksLoop (MBlock.heading d t :: rest) count
          = (['<', 'h'] ++ natToChars d ++ [' ', 'i', 'd', '=', '"']
              ++ (['s', 'e', 'c', 't', 'i', 'o', 'n', '-'] ++ natToChars count) ++ ['"', '>']
              ++ renderText t.data ++ ['<', '/', 'h'] ++ natToChars d ++ ['>', '\n']
              ++ (renderBlocksLoop rest (count + 1)).1,
             (if d ≤ 2 then
                [TocItem.mk ⟨['s', 'e', 'c', 't', 'i', 'o', 'n', '-'] ++ natToChars count⟩
                  ⟨stripTags (renderText t.data)⟩ d] else [])
               ++ (renderBlocksLoop rest (count + 1)).2) := rfl
      rw [hsplit] at he ⊢
      rcases List.mem_append.1 he with he | he
      · by_cases hd : d ≤ 2
        · rw [if_pos hd] at he
          rcases List.mem_singleton.1 he with rfl
          refine ⟨['<', 'h'] ++ natToChars d ++ [' '],
            ['>'] ++ renderText t.data ++ ['<', '/', 'h'] ++ natToChars d ++ ['>', '\n']
              ++ (renderBlocksLoop rest (count + 1)).1, ?_⟩
          simp
        · rw [if_neg hd] at he
          simp at he
      · have hocc := ih (count + 1) e he
        exact occurs_append_left _ hocc
    | paragraph t =>
      have hsplit : renderBlocksLoop (MBlock.paragraph t :: rest) count
          = (['<', 'p', '>'] ++ renderText t.data ++ ['<', '/', 'p', '>', '\n']
              ++ (renderBlocksLoop rest count).1,
             (renderBlocksLoop rest count).2) := rfl
      rw [hsplit] at he ⊢
      have hocc := ih count e he
      exact occurs_append_left _ hocc

theorem parseHeadingLine_bounds {line : List Char} {d : Nat} {t : List Char}
    (h : parseHeadingLine line = some (d, t)) : 1 ≤ d ∧ d ≤ 6 := by
  rw [parseHeadingLine] at h
  split_ifs at h with hcond
  injection h with hpair
  have hd : countHashes line = d := (Prod.mk.injEq .. ▸ hpair).1
  rw [← hd]
  exact ⟨hcond.1, hcond.2.1⟩

theorem headingsOf_closePara (para : List (List Char)) (rest : List MBlock) :
    headingsOf (closePara para rest) = headingsOf rest := by
  rw [closePara]
  split_ifs
  · rfl
  · rfl

theorem markedLexLoop_heading_bounds : ∀ (lines para : List (List Char)),
    ∀ p ∈ headingsOf (markedLexLoop lines para), 1 ≤ p.1 ∧ p.1 ≤ 6 := by
  intro lines
  induction lines with
  | nil =>
    intro para p hp
    rw [markedLexLoop, headingsOf_closePara] at hp
    simp [headingsOf] at hp
  | cons line rest ih =>
    intro para p hp
    rw [markedLexLoop] at hp
    cases hph : parseHeadingLine line with
    | some dt =>
      rw [hph] at hp
      rw [headingsOf_closePara] at hp
      rw [show headingsOf (MBlock.heading dt.1 ⟨dt.2⟩ :: markedLexLoop rest [])
          = (dt.1, (⟨dt.2⟩ : String)) :: headingsOf (markedLexLoop rest []) from rfl] at hp
      rcases List.mem_cons.1 hp with rfl | hp
      · exact parseHeadingLine_bounds (by rw [hph])
      · exact ih [] p hp
    | none =>
      rw [hph] at hp
      by_cases hb : isBlankLine line = true
      · rw [if_pos hb, headingsOf_closePara] at hp
        exact ih [] p hp
      · rw [if_neg hb] at hp
        exact ih (para ++ [line]) p hp

theorem sectionId_inj : ∀ m n : Nat,
    (⟨['s', 'e', 'c', 't', 'i', 'o', 'n', '-'] ++ natToChars m⟩ : String)
      = ⟨['s', 'e', 'c', 't', 'i', 'o', 'n', '-'] ++ natToChars n⟩ → m = n := by
  intro m n h
  have hd : ['s', 'e', 'c', 't', 'i', 'o', 'n', '-'] ++ natToChars m
      = ['s', 'e', 'c', 't', 'i', 'o', 'n', '-'] ++ natToChars n := congrArg String.data h
  have hnat : natToChars m = natToChars n := List.append_cancel_left hd
  have := congrArg parseIntChars hnat
  rwa [parseIntChars_natToChars, parseIntChars_natToChars] at this

theorem tocSpec_ids_nodup (blocks : List MBlock) :
    ((tocSpec blocks).map TocItem.id).Nodup := by
  rw [tocSpec, List.map_map]
  have hfun : (TocItem.id ∘ fun p : Nat × (Nat × String) =>
      TocItem.mk ⟨['s', 'e', 'c', 't', 'i', 'o', 'n', '-'] ++ natToChars p.1⟩
        ⟨stripTags (renderText p.2.2.data)⟩ p.2.1)
      = (fun n : Nat => (⟨['s', 'e', 'c', 't', 'i', 'o', 'n', '-'] ++ natToChars n⟩ : String))
          ∘ Prod.fst := rfl
  rw [hfun, ← List.map_map]
  have hfst : (((headingsOf blocks).enum.filter (fun p => p.2.1 ≤ 2)).map Prod.fst).Nodup := by
    have hsub : ((headingsOf blocks).enum.filter (fun p => p.2.1 ≤ 2)).Sublist
        (headingsOf blocks).enum := List.filter_sublist _
    have := (hsub.map Prod.fst).nodup ?_
    · exact this
    · rw [List.enum_map_fst]
      exact List.nodup_range _
  refine List.Nodup.map ?_ hfst
  intro a b hab
  exact sectionId_inj a b hab

/-- Claim C4 counterexample: with a level-3 heading between the level-1
and level-2 headings, the recorded TOC entries carry anchor ids
`section-0` and `section-2`: the ids of the recorded entries are not the
consecutive sequence `section-0`, `section-1` that the claim asserts. -/
theorem generateEpub_toc_counterexample :
    (generateEpub ("u") ("t") ("T") ("# A\n\n### B\n\n## C") []).toc.map TocItem.id
        = [("section-0" : String), ("section-2" : String)]
      ∧ (generateEpub ("u") ("t") ("T") ("# A\n\n### B\n\n## C") []).toc.map TocItem.id
          ≠ [("section-0" : String), ("section-1" : String)] := by
  constructor
  · decide
  · decide

/-- Claim C4 (amended): anchor ids are assigned sequentially in document
order to every heading of any depth (`section-0`, `section-1`, …); a TOC
entry is recorded exactly for the level-1/2 headings, with level in
{1,2} and inline-formatting-stripped text; the recorded anchor ids are
therefore globally unique — strictly increasing, but skipping the
indices consumed by deeper headings — and each recorded id appears as an
id attribute in the content document; the example `# Title\n\n## Sub`
yields exactly the two claimed entries. -/
theorem generateEpub_toc_spec (uid ts title md : String) (images : List ProcessedImage) :
    (generateEpub uid ts title md images).toc = tocSpec (markedLex md)
      ∧ ((generateEpub uid ts title md images).toc.map TocItem.id).Nodup
      ∧ (∀ e ∈ (generateEpub uid ts title md images).toc, e.level = 1 ∨ e.level = 2)
      ∧ (∀ e ∈ (generateEpub uid ts title md images).toc,
          containsSub (['i', 'd', '=', '"'] ++ e.id.data ++ ['"'])
            (generateEpub uid ts title md images).contentXhtml.data = true)
      ∧ (generateEpub uid ts ("T") ("# Title\n\n## Sub") images).toc
          = [TocItem.mk ("section-0") ("Title") 1, TocItem.mk ("section-1") ("Sub") 2] := by
  have htoc : (generateEpub uid ts title md images).toc = tocSpec (markedLex md) := by
    rw [generateEpub_toc_eq]
    show (renderBlocksLoop (markedLex md) 0).2 = _
    rw [renderBlocksLoop_toc]
    rfl
  refine ⟨htoc, ?_, ?_, ?_, ?_⟩
  · rw [htoc]
    exact tocSpec_ids_nodup _
  · rw [htoc]
    intro e he
    rw [tocSpec] at he
    obtain ⟨p, hp, rfl⟩ := List.mem_map.1 he
    have hle0 := (List.mem_filter.1 hp).2
    have hle : p.2.1 ≤ 2 := by simpa using hle0
    have hmem : p ∈ (headingsOf (markedLex md)).enum := (List.mem_filter.1 hp).1
    have hmem' : (p.1, p.2) ∈ (headingsOf (markedLex md)).enumFrom 0 := hmem
    obtain ⟨-, hlt, hx⟩ := List.mem_enumFrom hmem'
    have hp2 : p.2 ∈ headingsOf (markedLex md) := by
      rw [hx]
      exact List.getElem_mem _
    have hbounds := markedLexLoop_heading_bounds (jsSplit1 '\n' md.data) [] p.2 hp2
    show p.2.1 = 1 ∨ p.2.1 = 2
    omega
  · intro e he
    rw [generateEpub_toc_eq] at he
    have he' : e ∈ (renderBlocksLoop (markedLex md) 0).2 := he
    have hbody := renderBlocksLoop_anchor (markedLex md) 0 e he'
    rw [generateEpub_contentXhtml_eq]
    apply occurs_containsSub
    show Occurs _ (contentXhtmlOf (escapeXml title) (markedParse md).1).data
    simp only [contentXhtmlOf, String.data_append]
    apply occurs_append_right
    apply occurs_append_left
    exact hbody
  · rw [generateEpub_toc_eq]
    decide

theorem generateEpub_toc_spec_witness :
    (generateEpub ("u") ("t") ("T") ("# Title\n\n## Sub") []).toc
      = [TocItem.mk ("section-0") ("Title") 1, TocItem.mk ("section-1") ("Sub") 2] :=
  (generateEpub_toc_spec ("u") ("t") ("x") ("y") []).2.2.2.2

theorem splitOnceChar_spec {d : Char} : ∀ {u : List Char}, d ∉ u → ∀ v : List Char,
    splitOnceChar d (u ++ d :: v) = some (u, v) := by
  intro u hu v
  induction u with
  | nil =>
    rw [List.nil_append, splitOnceChar, if_pos rfl]
  | cons c u' ih =>
    rw [List.cons_append, splitOnceChar]
    have hcd : ¬(c = d) := fun e => hu (e ▸ List.mem_cons_self c u')
    rw [if_neg hcd, ih fun hm => hu (List.mem_cons_of_mem c hm)]

theorem parseInlinesAux_nil : ∀ fuel : Nat, parseInlinesAux fuel [] = [] := by
  intro fuel
  cases fuel with
  | zero => rfl
  | succ f => rfl

theorem parseInlinesAux_image (alt href : List Char) (halt : ']' ∉ alt)
    (hhref : ')' ∉ href) (fuel : Nat) :
    parseInlinesAux (fuel + 1) ('!' :: '[' :: (alt ++ ']' :: ('(' :: (href ++ [')']))))
      = [Inline.image alt href] := by
  have h1 : splitOnceChar ']' (alt ++ ']' :: ('(' :: (href ++ [')'])))
      = some (alt, '(' :: (href ++ [')'])) := splitOnceChar_spec halt _
  have h2 : splitOnceChar ')' (href ++ [')']) = some (href, []) := by
    have := splitOnceChar_spec hhref ([] : List Char)
    simpa using this
  simp only [parseInlinesAux, h1, h2, parseInlinesAux_nil]

theorem parseHeadingLine_nil : parseHeadingLine [] = none := by decide

theorem isBlankLine_nil : isBlankLine [] = true := by decide

theorem parseHeadingLine_bang (rest : List Char) :
    parseHeadingLine ('!' :: rest) = none := by
  rw [parseHeadingLine]
  have h0 : countHashes ('!' :: rest) = 0 := rfl
  simp [h0]

theorem isBlankLine_bang (rest : List Char) : isBlankLine ('!' :: rest) = false := rfl

theorem closePara_exists (para : List (List Char)) (X : List MBlock) :
    ∃ y, closePara para X = y ++ X := by
  rw [closePara]
  by_cases h : para.isEmpty
  · rw [if_pos h]
    exact ⟨[], rfl⟩
  · rw [if_neg h]
    exact ⟨[MBlock.paragraph ⟨joinLinesNL para⟩], rfl⟩

theorem markedLexLoop_img (imgLine : List Char)
    (hhead : parseHeadingLine imgLine = none) (hblank : isBlankLine imgLine = false) :
    ∀ (w para z : List (List Char)),
    ∃ bs, markedLexLoop (w ++ ([] :: imgLine :: [] :: z)) para
      = bs ++ (MBlock.paragraph ⟨imgLine⟩ :: markedLexLoop z []) := by
  have hstep2 : ∀ z : List (List Char), markedLexLoop ([] :: z) [imgLine]
      = MBlock.paragraph ⟨imgLine⟩ :: markedLexLoop z [] := by
    intro z
    rw [markedLexLoop, parseHeadingLine_nil, if_pos isBlankLine_nil]
    show closePara [imgLine] (markedLexLoop z []) = _
    rw [closePara, if_neg (by simp)]
    rfl
  have hcore : ∀ z : List (List Char), markedLexLoop (imgLine :: [] :: z) []
      = MBlock.paragraph ⟨imgLine⟩ :: markedLexLoop z [] := by
    intro z
    rw [markedLexLoop, hhead, if_neg (by rw [hblank]; exact Bool.false_ne_true)]
    show markedLexLoop ([] :: z) ([] ++ [imgLine]) = _
    rw [List.nil_append]
    exact hstep2 z
  intro w
  induction w with
  | nil =>
    intro para z
    rw [List.nil_append]
    rw [markedLexLoop, parseHeadingLine_nil, if_pos isBlankLine_nil]
    show ∃ bs, closePara para (markedLexLoop (imgLine :: [] :: z) []) = _
    rw [hcore z]
    exact closePara_exists para _
  | cons line w' ih =>
    intro para z
    rw [List.cons_append, markedLexLoop]
    cases hph : parseHeadingLine line with
    | some dt =>
      obtain ⟨d, t⟩ := dt
      obtain ⟨bs', hbs'⟩ := ih [] z
      show ∃ bs, closePara para
          (MBlock.heading d ⟨t⟩ :: markedLexLoop (w' ++ ([] :: imgLine :: [] :: z)) []) = _
      rw [hbs']
      obtain ⟨y, hy⟩ := closePara_exists para
        (MBlock.heading d ⟨t⟩ :: (bs' ++ (MBlock.paragraph ⟨imgLine⟩
          :: markedLexLoop z [])))
      rw [hy]
      exact ⟨y ++ MBlock.heading d ⟨t⟩ :: bs', by simp⟩
    | none =>
      by_cases hb : isBlankLine line = true
      · rw [if_pos hb]
        obtain ⟨bs', hbs'⟩ := ih [] z
        show ∃ bs, closePara para (markedLexLoop (w' ++ ([] :: imgLine :: [] :: z)) []) = _
        rw [hbs']
        obtain ⟨y, hy⟩ := closePara_exists para
          (bs' ++ (MBlock.paragraph ⟨imgLine⟩ :: markedLexLoop z []))
        rw [hy]
        exact ⟨y ++ bs', by simp⟩
      · rw [if_neg hb]
        exact ih (para ++ [line]) z

theorem jsSplit1_append_exists {a : Char} : ∀ u z : List Char,
    ∃ w : List (List Char), w ≠ []
      ∧ jsSplit1 a (u ++ a :: z) = w ++ jsSplit1 a z := by
  intro u z
  induction u with
  | nil =>
    rw [List.nil_append, jsSplit1, if_pos rfl]
    exact ⟨[[]], by simp, rfl⟩
  | cons c u' ih =>
    obtain ⟨w', hw', hsplit⟩ := ih
    rw [List.cons_append, jsSplit1]
    by_cases hca : c = a
    · rw [if_pos hca, hsplit]
      exact ⟨[] :: w', by simp, rfl⟩
    · rw [if_neg hca, hsplit]
      cases w' with
      | nil => exact absurd rfl hw'
      | cons h t =>
        rw [List.cons_append, consHead]
        exact ⟨(c :: h) :: t, by simp, rfl⟩

theorem renderBlocksLoop_append : ∀ (bs1 bs2 : List MBlock) (count : Nat),
    ∃ (pre : List Char) (c2 : Nat),
      (renderBlocksLoop (bs1 ++ bs2) count).1 = pre ++ (renderBlocksLoop bs2 c2).1 := by
  intro bs1
  induction bs1 with
  | nil =>
    intro bs2 count
    exact ⟨[], count, rfl⟩
  | cons blk rest ih =>
    intro bs2 count
    cases blk with
    | heading d t =>
      obtain ⟨pre', c2, hpre'⟩ := ih bs2 (count + 1)
      refine ⟨['<', 'h'] ++ natToChars d ++ [' ', 'i', 'd', '=', '"']
        ++ (['s', 'e', 'c', 't', 'i', 'o', 'n', '-'] ++ natToChars count) ++ ['"', '>']
        ++ renderText t.data ++ ['<', '/', 'h'] ++ natToChars d ++ ['>', '\n'] ++ pre',
        c2, ?_⟩
      show ['<', 'h'] ++ natToChars d ++ [' ', 'i', 'd', '=', '"']
          ++ (['s', 'e', 'c', 't', 'i', 'o', 'n', '-'] ++ natToChars count) ++ ['"', '>']
          ++ renderText t.data ++ ['<', '/', 'h'] ++ natToChars d ++ ['>', '\n']
          ++ (renderBlocksLoop (rest ++ bs2) (count + 1)).1 = _
      rw [hpre']
      simp
    | paragraph t =>
      obtain ⟨pre', c2, hpre'⟩ := ih bs2 count
      refine ⟨['<', 'p', '>'] ++ renderText t.data ++ ['<', '/', 'p', '>', '\n'] ++ pre',
        c2, ?_⟩
      show ['<', 'p', '>'] ++ renderText t.data ++ ['<', '/', 'p', '>', '\n']
          ++ (renderBlocksLoop (rest ++ bs2) count).1 = _
      rw [hpre']
      simp

/-- Claim C8: a markdown image reference `![alt](name)` (standing as its
own paragraph) whose target names a supplied image resolves, in the
content document produced by `generateEpub`, to an `img` element whose
src is `images/<name>` and whose src and alt attribute values are
XML-escaped by `escapeXml`, for every choice of special characters in
the alt text. -/
theorem generateEpub_image_roundtrip (uid ts title pre post alt name : String)
    (images : List ProcessedImage)
    (hmem : name ∈ images.map ProcessedImage.name)
    (hpfx : (['i', 'm', 'a', 'g', 'e', 's', '/']).isPrefixOf name.data = false)
    (hne : name.data ≠ [])
    (halt1 : ']' ∉ alt.data) (halt2 : '\n' ∉ alt.data)
    (hname1 : ')' ∉ name.data) (hname2 : '\n' ∉ name.data) :
    rendererImage name alt
        = ("<img src=\"" ++ escapeXml (("images/" : String) ++ name) ++ "\" alt=\""
            ++ escapeXml alt ++ "\" />")
      ∧ containsSub (rendererImage name alt).data
          (generateEpub uid ts title
            (pre ++ ("\n\n![" : String) ++ alt ++ ("](" : String) ++ name
              ++ (")\n\n" : String) ++ post) images).contentXhtml.data = true := by
  have hform : rendererImage name alt
      = ("<img src=\"" ++ escapeXml (("images/" : String) ++ name) ++ "\" alt=\""
          ++ escapeXml alt ++ "\" />") := by
    rw [rendererImage]
    rw [if_neg (by
      intro hempty
      exact hne (List.isEmpty_iff.1 hempty))]
    rw [if_neg (by rw [hpfx]; exact Bool.false_ne_true)]
    rfl
  have hmd : (pre ++ ("\n\n![" : String) ++ alt ++ ("](" : String) ++ name
      ++ (")\n\n" : String) ++ post).data
      = pre.data ++ '\n'
          :: ('\n' :: (('!' :: '[' :: (alt.data ++ ']' :: ('(' :: (name.data ++ [')']))))
              ++ '\n' :: ('\n' :: post.data))) := by
    simp only [String.data_append]
    simp
  have hnl_not_img : '\n'
      ∉ '!' :: '[' :: (alt.data ++ ']' :: ('(' :: (name.data ++ [')']))) := by
    intro h
    simp only [List.mem_cons, List.mem_append, List.mem_singleton] at h
    rcases h with h | h | h | h | h | h | h
    · exact absurd h (by decide)
    · exact absurd h (by decide)
    · exact halt2 h
    · exact absurd h (by decide)
    · exact absurd h (by decide)
    · exact hname2 h
    · exact absurd h (by decide)
  have hsuffix : jsSplit1 '\n'
      ('\n' :: (('!' :: '[' :: (alt.data ++ ']' :: ('(' :: (name.data ++ [')']))))
        ++ '\n' :: ('\n' :: post.data)))
      = [] :: (('!' :: '[' :: (alt.data ++ ']' :: ('(' :: (name.data ++ [')']))))
          :: ([] :: jsSplit1 '\n' post.data)) := by
    rw [jsSplit1, if_pos rfl]
    rw [jsSplit1_first _ _ hnl_not_img]
    rw [jsSplit1, if_pos rfl]
  obtain ⟨w, hw, hsplitw⟩ := jsSplit1_append_exists (a := '\n') pre.data
    ('\n' :: (('!' :: '[' :: (alt.data ++ ']' :: ('(' :: (name.data ++ [')']))))
      ++ '\n' :: ('\n' :: post.data)))
  have hph : parseHeadingLine
      ('!' :: '[' :: (alt.data ++ ']' :: ('(' :: (name.data ++ [')'])))) = none :=
    parseHeadingLine_bang _
  have hbl : isBlankLine
      ('!' :: '[' :: (alt.data ++ ']' :: ('(' :: (name.data ++ [')'])))) = false :=
    isBlankLine_bang _
  obtain ⟨bs, hbs⟩ := markedLexLoop_img _ hph hbl w [] (jsSplit1 '\n' post.data)
  have hlex : markedLex (pre ++ ("\n\n![" : String) ++ alt ++ ("](" : String) ++ name
      ++ (")\n\n" : String) ++ post)
      = bs ++ (MBlock.paragraph
          ⟨'!' :: '[' :: (alt.data ++ ']' :: ('(' :: (name.data ++ [')'])))⟩
        :: markedLexLoop (jsSplit1 '\n' post.data) []) := by
    rw [markedLex, hmd, hsplitw, hsuffix]
    exact hbs
  have hrt : renderText ('!' :: '[' :: (alt.data ++ ']' :: ('(' :: (name.data ++ [')']))))
      = (rendererImage name alt).data := by
    rw [renderText, parseInlines]
    rw [show ('!' :: '[' :: (alt.data ++ ']' :: ('(' :: (name.data ++ [')'])))).length
        = ('[' :: (alt.data ++ ']' :: ('(' :: (name.data ++ [')'])))).length + 1 from rfl]
    rw [parseInlinesAux_image alt.data name.data halt1 hname1 _]
    show renderInline (Inline.image alt.data name.data) ++ [] = _
    rw [List.append_nil]
    rfl
  obtain ⟨pre1, c2, hpre1⟩ := renderBlocksLoop_append bs
    (MBlock.paragraph ⟨'!' :: '[' :: (alt.data ++ ']' :: ('(' :: (name.data ++ [')'])))⟩
      :: markedLexLoop (jsSplit1 '\n' post.data) []) 0
  have hbody : Occurs (rendererImage name alt).data
      (renderBlocksLoop (markedLex (pre ++ ("\n\n![" : String) ++ alt ++ ("](" : String)
        ++ name ++ (")\n\n" : String) ++ post)) 0).1 := by
    rw [hlex, hpre1]
    show Occurs (rendererImage name alt).data
      (pre1 ++ (['<', 'p', '>']
        ++ renderText ('!' :: '[' :: (alt.data ++ ']' :: ('(' :: (name.data ++ [')']))))
        ++ ['<', '/', 'p', '>', '\n']
        ++ (renderBlocksLoop (markedLexLoop (jsSplit1 '\n' post.data) []) (c2 + 0)).1))
    rw [hrt]
    refine ⟨pre1 ++ ['<', 'p', '>'], ['<', '/', 'p', '>', '\n']
      ++ (renderBlocksLoop (markedLexLoop (jsSplit1 '\n' post.data) []) (c2 + 0)).1, ?_⟩
    simp
  refine ⟨hform, ?_⟩
  rw [generateEpub_contentXhtml_eq]
  apply occurs_containsSub
  show Occurs _ (contentXhtmlOf (escapeXml title)
    (markedParse (pre ++ ("\n\n![" : String) ++ alt ++ ("](" : String) ++ name
      ++ (")\n\n" : String) ++ post)).1).data
  simp only [contentXhtmlOf, String.data_append]
  apply occurs_append_right
  apply occurs_append_left
  exact hbody

theorem generateEpub_image_roundtrip_witness :
    containsSub (rendererImage ("image_p2_i1.jpg") ("a&\"b")).data
      (generateEpub ("u") ("t") ("T") (("Intro" : String) ++ ("\n\n![" : String)
        ++ ("a&\"b" : String) ++ ("](" : String) ++ ("image_p2_i1.jpg" : String)
        ++ (")\n\n" : String) ++ ("End" : String)) exPermImages).contentXhtml.data = true :=
  (generateEpub_image_roundtrip ("u") ("t") ("T") ("Intro") ("End") ("a&\"b")
    ("image_p2_i1.jpg") exPermImages (by decide) (by decide) (by decide) (by decide)
    (by decide) (by decide) (by decide)).2
